import Mathlib

/-!
Verification development for the oamap schema/operations core
(src/oamap/schema.py and src/oamap/operations.py).

Python schema objects form graphs (nodes may be shared, and Pointer nodes
may close cycles); object identity `id(node)` is modelled by an index into
an arena (`SchemaGraph.nodes`), and every recursive algorithm of the source
that walks such graphs (label collection, serialization, structural
equality) is embedded with explicit fuel, exactly mirroring the source's
traversal order and its `id`-keyed memo tables.

`packing` values (class `PackedSource`, from a module that only round-trips
through `tojson`/`fromjson` here) are modelled as opaque `Option String`
payloads whose JSON round trip is the identity.
-/

namespace OamapSpec

/-- One schema node (`Primitive`, `List`, `Union`, `Record`, `Tuple`,
`Pointer` from src/oamap/schema.py); children are of type `χ` (arena
indices for a built graph, placeholder-or-index during deserialization).
Field order follows the Python constructors. -/
inductive SNode (χ : Type) where
  | prim (dtype : String) (dims : List Nat) (nullable : Bool)
      (data mask packing name doc : Option String)
  | list (content : χ) (nullable : Bool)
      (starts stops mask packing name doc : Option String)
  | union (possibilities : List χ) (nullable : Bool)
      (tags offsets mask packing name doc : Option String)
  | record (fields : List (String × χ)) (nullable : Bool)
      (mask packing name doc : Option String)
  | tuple (types : List χ) (nullable : Bool)
      (mask packing name doc : Option String)
  | pointer (target : χ) (nullable : Bool)
      (positions mask packing name doc : Option String)
  deriving DecidableEq

/-- A Python object graph of schema nodes: `nodes` is the arena (index =
object identity) and `root` the node the API is called on. -/
structure SchemaGraph where
  nodes : List (SNode Nat)
  root : Nat
  deriving DecidableEq

/-- Default node used by total index lookup (never reached on well-formed
graphs). -/
def defaultNode : SNode Nat := .prim "" [] false none none none none none

/-- Dereference an arena index (Python attribute access on the object). -/
def SchemaGraph.node (g : SchemaGraph) (i : Nat) : SNode Nat :=
  g.nodes.getD i defaultNode

/-- The child references of a node, in the order the Python code visits
them (`content`; `possibilities`; field values in insertion order;
`types`; `target`). -/
def childIds : SNode Nat → List Nat
  | .prim _ _ _ _ _ _ _ _ => []
  | .list c _ _ _ _ _ _ _ => [c]
  | .union ps _ _ _ _ _ _ _ => ps
  | .record fs _ _ _ _ _ => fs.map Prod.snd
  | .tuple ts _ _ _ _ _ => ts
  | .pointer t _ _ _ _ _ _ => [t]

/-- Node-local well-formedness: every child index is in the arena, and a
Record's field names are distinct (Python dict keys). -/
def nodeWF (len : Nat) : SNode Nat → Bool
  | .record fs _ _ _ _ _ =>
      fs.all (fun p => p.2 < len) && decide (fs.map Prod.fst).Nodup
  | n => (childIds n).all (· < len)

/-- Well-formed graph: valid root and all children in range. -/
def wfB (g : SchemaGraph) : Bool :=
  decide (g.root < g.nodes.length) && g.nodes.all (nodeWF g.nodes.length)

/-! ## JSON serialization (`Schema.tojson`, non-`explicit` mode)

The JSON tree emitted by `Schema._tojson(explicit=False, labels, shown)`:
a key is present exactly when its value differs from the default, modelled
by `Option` fields (`none` = key absent).  A bare string is either a
collapsed default Primitive (its dtype) or a `"#n"` back-reference. -/
inductive JSchema where
  | jstr (s : String)
  | jprim (dtype : String) (dims : Option (List Nat)) (nullable : Option Bool)
      (data mask packing name doc label : Option String)
  | jlist (content : JSchema) (nullable : Option Bool)
      (starts stops mask packing name doc label : Option String)
  | junion (possibilities : List JSchema) (nullable : Option Bool)
      (tags offsets mask packing name doc label : Option String)
  | jrecord (fields : List (String × JSchema)) (nullable : Option Bool)
      (mask packing name doc label : Option String)
  | jtuple (types : List JSchema) (nullable : Option Bool)
      (mask packing name doc label : Option String)
  | jpointer (target : JSchema) (nullable : Option Bool)
      (positions mask packing name doc label : Option String)

/-- `Schema._label(labels)`: the first position of this node in the labels
list, rendered as `"#index"`, or `None`. -/
def labelOf (labels : List Nat) (i : Nat) : Option String :=
  if i ∈ labels then some ("#" ++ toString (labels.indexOf i)) else none

/-- `Schema._collectlabels(collection, labels)`: depth-first walk that
appends a node to `labels` on every repeat visit.  The recursive Python
walk is run as a worklist (children pushed in front), which visits nodes
in the same order with the same `collection` evolution; `fuel` bounds the
walk (any fuel above the number of edges plus nodes suffices). -/
def collectLabels (g : SchemaGraph) :
    Nat → List Nat → List Nat × List Nat → Option (List Nat × List Nat)
  | 0, _, _ => none
  | _ + 1, [], st => some st
  | fuel + 1, i :: pending, (coll, labels) =>
    if i ∈ coll then
      collectLabels g fuel pending (coll, labels ++ [i])
    else
      collectLabels g fuel (childIds (g.node i) ++ pending) (coll ++ [i], labels)

/-- Emit `some x` when the value differs from the default `false`
(`if explicit or self._nullable is not False`). -/
def optBool (b : Bool) : Option Bool :=
  if b then some true else none

/-- Emit the dims key only when `dims != ()`. -/
def optDims (dims : List Nat) : Option (List Nat) :=
  if dims = [] then none else some dims

mutual

/-- `Schema._tojson(explicit=False, labels, shown)` for one node: a node
with a label that is already in `shown` serializes as its back-reference
string; otherwise it is added to `shown` and emitted in full — except that
a Primitive with all-default metadata collapses to its bare dtype string
(source line 397; note the collapse test ignores `doc` and the label).
`fuel` decreases on every recursive step. -/
def tojsonAux (g : SchemaGraph) (labels : List Nat) :
    Nat → Nat → List Nat → Option (JSchema × List Nat)
  | 0, _, _ => none
  | fuel + 1, i, shown =>
    let label := labelOf labels i
    if label = none ∨ i ∉ shown then
      let shown := shown ++ [i]
      match g.node i with
      | .prim dtype dims nullable data mask packing name doc =>
        if dims = [] ∧ nullable = false ∧ data = none ∧ mask = none ∧
            packing = none ∧ name = none then
          some (.jstr dtype, shown)
        else
          some (.jprim dtype (optDims dims) (optBool nullable)
            data mask packing name doc label, shown)
      | .list c nullable starts stops mask packing name doc =>
        match tojsonAux g labels fuel c shown with
        | none => none
        | some (jc, shown) =>
          some (.jlist jc (optBool nullable) starts stops mask packing
            name doc label, shown)
      | .union ps nullable tags offsets mask packing name doc =>
        match tojsonMany g labels fuel ps shown with
        | none => none
        | some (js, shown) =>
          some (.junion js (optBool nullable) tags offsets mask packing
            name doc label, shown)
      | .record fs nullable mask packing name doc =>
        match tojsonFields g labels fuel fs shown with
        | none => none
        | some (jfs, shown) =>
          some (.jrecord jfs (optBool nullable) mask packing
            name doc label, shown)
      | .tuple ts nullable mask packing name doc =>
        match tojsonMany g labels fuel ts shown with
        | none => none
        | some (js, shown) =>
          some (.jtuple js (optBool nullable) mask packing
            name doc label, shown)
      | .pointer t nullable positions mask packing name doc =>
        match tojsonAux g labels fuel t shown with
        | none => none
        | some (jt, shown) =>
          some (.jpointer jt (optBool nullable) positions mask packing
            name doc label, shown)
    else
      match label with
      | some s => some (.jstr s, shown)
      | none => none

/-- Serialize a list of children left to right, threading `shown`. -/
def tojsonMany (g : SchemaGraph) (labels : List Nat) :
    Nat → List Nat → List Nat → Option (List JSchema × List Nat)
  | 0, _, _ => none
  | _ + 1, [], shown => some ([], shown)
  | fuel + 1, c :: cs, shown =>
    match tojsonAux g labels fuel c shown with
    | none => none
    | some (j, shown) =>
      match tojsonMany g labels fuel cs shown with
      | none => none
      | some (js, shown) => some (j :: js, shown)

/-- Serialize record fields in insertion order, threading `shown`. -/
def tojsonFields (g : SchemaGraph) (labels : List Nat) :
    Nat → List (String × Nat) → List Nat → Option (List (String × JSchema) × List Nat)
  | 0, _, _ => none
  | _ + 1, [], shown => some ([], shown)
  | fuel + 1, (n, c) :: fs, shown =>
    match tojsonAux g labels fuel c shown with
    | none => none
    | some (j, shown) =>
      match tojsonFields g labels fuel fs shown with
      | none => none
      | some (jfs, shown) => some ((n, j) :: jfs, shown)

end

/-- `Schema.tojson()`: collect labels (`self._labels()`), then serialize
from the root with an empty `shown` set. -/
def schemaTojson (g : SchemaGraph) (fuel : Nat) : Option JSchema :=
  match collectLabels g fuel [g.root] ([], []) with
  | none => none
  | some (_, labels) =>
    match tojsonAux g labels fuel g.root [] with
    | none => none
    | some (j, _) => some j

/-! ## JSON deserialization (`Schema.fromjson`)

Phase one (`Schema._fromjson(data, labels)`) builds nodes bottom-up; a
string starting with `"#"` stays a placeholder `ref`; each labelled node
is registered in `labels` after its children were built.  Phase two
(`_finalizefromjson`) replaces every placeholder with the labelled node,
failing on an unresolved label. -/

/-- A child slot during phase one: an already-built node (arena index) or
a `"#n"` placeholder string. -/
inductive BChild where
  | ref (s : String)
  | idx (n : Nat)
  deriving DecidableEq

/-- Phase-one state: arena of built nodes plus the `labels` dict (later
registrations shadow earlier ones, hence cons to the front). -/
structure BState where
  arena : List (SNode BChild)
  labels : List (String × Nat)

/-- Python `data.startswith("#")`: the string's first character is the
back-reference marker. -/
def startsWithHash (s : String) : Bool :=
  match s.data with
  | [] => false
  | c :: _ => c = '#'

/-- Register `labels[label] = node` when the JSON carried a label key. -/
def regLabel (label : Option String) (i : Nat)
    (labels : List (String × Nat)) : List (String × Nat) :=
  match label with
  | none => labels
  | some s => (s, i) :: labels

mutual

/-- Phase one for one JSON node, returning its child slot and the updated
state; mirrors the per-kind `_fromjson` methods (children first, label
registration last, `.get` defaults for missing keys). -/
def phase1 : JSchema → BState → BChild × BState
  | .jstr s, st =>
    if startsWithHash s then (.ref s, st)
    else
      (.idx st.arena.length,
        ⟨st.arena ++ [.prim s [] false none none none none none], st.labels⟩)
  | .jprim dtype dims nullable data mask packing name doc label, st =>
    (.idx st.arena.length,
      ⟨st.arena ++ [.prim dtype (dims.getD []) (nullable.getD false)
          data mask packing name doc],
        regLabel label st.arena.length st.labels⟩)
  | .jlist content nullable starts stops mask packing name doc label, st =>
    let (c, st) := phase1 content st
    (.idx st.arena.length,
      ⟨st.arena ++ [.list c (nullable.getD false) starts stops mask
          packing name doc],
        regLabel label st.arena.length st.labels⟩)
  | .junion ps nullable tags offsets mask packing name doc label, st =>
    let (cs, st) := phase1Many ps st
    (.idx st.arena.length,
      ⟨st.arena ++ [.union cs (nullable.getD false) tags offsets mask
          packing name doc],
        regLabel label st.arena.length st.labels⟩)
  | .jrecord fs nullable mask packing name doc label, st =>
    let (jfs, st) := phase1Fields fs st
    (.idx st.arena.length,
      ⟨st.arena ++ [.record jfs (nullable.getD false) mask
          packing name doc],
        regLabel label st.arena.length st.labels⟩)
  | .jtuple ts nullable mask packing name doc label, st =>
    let (cs, st) := phase1Many ts st
    (.idx st.arena.length,
      ⟨st.arena ++ [.tuple cs (nullable.getD false) mask
          packing name doc],
        regLabel label st.arena.length st.labels⟩)
  | .jpointer target nullable positions mask packing name doc label, st =>
    let (t, st) := phase1 target st
    (.idx st.arena.length,
      ⟨st.arena ++ [.pointer t (nullable.getD false) positions mask
          packing name doc],
        regLabel label st.arena.length st.labels⟩)

/-- Phase one over a list of child JSON nodes, left to right. -/
def phase1Many : List JSchema → BState → List BChild × BState
  | [], st => ([], st)
  | j :: js, st =>
    let (c, st) := phase1 j st
    let (cs, st) := phase1Many js st
    (c :: cs, st)

/-- Phase one over record fields in list order. -/
def phase1Fields : List (String × JSchema) → BState → List (String × BChild) × BState
  | [], st => ([], st)
  | (n, j) :: fs, st =>
    let (c, st) := phase1 j st
    let (cfs, st) := phase1Fields fs st
    ((n, c) :: cfs, st)

end

/-- Phase-two resolution of one child slot: a placeholder looks up the
labels dict and fails if absent (`"unresolved label"`). -/
def resolveChild (labels : List (String × Nat)) : BChild → Except String Nat
  | .idx n => .ok n
  | .ref s =>
    match labels.lookup s with
    | some n => .ok n
    | none => .error ("unresolved label: " ++ s)

/-- Phase-two resolution of a list of child slots, left to right. -/
def resolveChildren (labels : List (String × Nat)) :
    List BChild → Except String (List Nat)
  | [] => .ok []
  | c :: cs =>
    match resolveChild labels c with
    | .error e => .error e
    | .ok n =>
      match resolveChildren labels cs with
      | .error e => .error e
      | .ok ns => .ok (n :: ns)

/-- Phase-two resolution of record field slots, left to right. -/
def resolveFields (labels : List (String × Nat)) :
    List (String × BChild) → Except String (List (String × Nat))
  | [] => .ok []
  | (nm, c) :: fs =>
    match resolveChild labels c with
    | .error e => .error e
    | .ok n =>
      match resolveFields labels fs with
      | .error e => .error e
      | .ok nfs => .ok ((nm, n) :: nfs)

/-- Phase two for one node: resolve each child slot.  Walking the arena
node by node visits exactly the nodes the recursive
`_finalizefromjson` tree walk visits (phase one builds a tree in which
every allocated node occurs exactly once). -/
def resolveNode (labels : List (String × Nat)) :
    SNode BChild → Except String (SNode Nat)
  | .prim dtype dims nullable data mask packing name doc =>
    .ok (.prim dtype dims nullable data mask packing name doc)
  | .list c nullable starts stops mask packing name doc =>
    (resolveChild labels c).map
      (fun n => .list n nullable starts stops mask packing name doc)
  | .union cs nullable tags offsets mask packing name doc =>
    (resolveChildren labels cs).map
      (fun ns => .union ns nullable tags offsets mask packing name doc)
  | .record fs nullable mask packing name doc =>
    (resolveFields labels fs).map
      (fun nfs => .record nfs nullable mask packing name doc)
  | .tuple cs nullable mask packing name doc =>
    (resolveChildren labels cs).map
      (fun ns => .tuple ns nullable mask packing name doc)
  | .pointer t nullable positions mask packing name doc =>
    (resolveChild labels t).map
      (fun n => .pointer n nullable positions mask packing name doc)

/-- Phase two over the whole arena. -/
def resolveAll (labels : List (String × Nat)) :
    List (SNode BChild) → Except String (List (SNode Nat))
  | [] => .ok []
  | n :: ns =>
    match resolveNode labels n with
    | .error e => .error e
    | .ok n' =>
      match resolveAll labels ns with
      | .error e => .error e
      | .ok ns' => .ok (n' :: ns')

/-- `Schema.fromjson(data)`: run phase one; a root that is itself a
placeholder is an unresolved label; then run phase two over every built
node. -/
def schemaFromjson (j : JSchema) : Except String SchemaGraph :=
  let (c, st) := phase1 j ⟨[], []⟩
  match c with
  | .ref s => .error ("unresolved label: " ++ s)
  | .idx n =>
    match resolveAll st.labels st.arena with
    | .error e => .error e
    | .ok nodes => .ok ⟨nodes, n⟩

/-! ## Structural equality (`__eq__` of each schema kind)

Each non-Primitive kind first consults the memo (`id(self) -> id(other)`:
here, left index to right index), then compares its own scalar fields,
records the pair, and recurses into children one by one, mutating the
shared memo (`all(...)` short-circuits on the first failure).
`Primitive.__eq__` neither reads nor writes the memo.  Note the source's
`List.__eq__` (schema.py line 707) does *not* compare `nullable`, and no
kind compares `doc`. -/

/-- Python `id(self) in memo` / `memo[id(self)]`: the first entry wins,
keys are inserted at most once. -/
def mlookup : List (Nat × Nat) → Nat → Option Nat
  | [], _ => none
  | (k, v) :: rest, i => if i = k then some v else mlookup rest i

/-- `set(self._fields) == set(other._fields)` on the field-name lists. -/
def sameKeys (a b : List String) : Prop :=
  (∀ x ∈ a, x ∈ b) ∧ (∀ x ∈ b, x ∈ a)

instance (a b : List String) : Decidable (sameKeys a b) := by
  unfold sameKeys; infer_instance

/-- `other._fields[n]` (never fails in the source because the key sets
were just compared). -/
def flookup : List (String × Nat) → String → Option Nat
  | [], _ => none
  | (k, v) :: rest, n => if n = k then some v else flookup rest n

/-- The child comparisons a fresh visit of `a.__eq__(b, memo)` schedules,
in source order: `(self.content, other.content)`;
`zip(self.possibilities, other.possibilities)`;
`(self._fields[n], other._fields[n]) for n in self._fields`;
`zip(self._types, other._types)`; `(self.target, other.target)`. -/
def childPairs : SNode Nat → SNode Nat → List (Nat × Nat)
  | .list c _ _ _ _ _ _ _, .list c2 _ _ _ _ _ _ _ => [(c, c2)]
  | .union ps _ _ _ _ _ _ _, .union ps2 _ _ _ _ _ _ _ => ps.zip ps2
  | .record fs _ _ _ _ _, .record fs2 _ _ _ _ _ =>
    fs.map (fun p => (p.2, (flookup fs2 p.1).getD 0))
  | .tuple ts _ _ _ _ _, .tuple ts2 _ _ _ _ _ => ts.zip ts2
  | .pointer t _ _ _ _ _ _, .pointer t2 _ _ _ _ _ _ => [(t, t2)]
  | _, _ => []

/-- The memo-free scalar comparison a visit of `a.__eq__(b, memo)`
performs before descending, per kind of `a` (the `isinstance` test plus
the field comparisons of the source).  Note `List.__eq__` (schema.py
line 707) does not compare `nullable`, and no kind compares `doc`. -/
def shallowEq : SNode Nat → SNode Nat → Prop
  | .prim d dm nb da mk pk nm _, .prim d2 dm2 nb2 da2 mk2 pk2 nm2 _ =>
    d = d2 ∧ dm = dm2 ∧ nb = nb2 ∧ da = da2 ∧ mk = mk2 ∧ pk = pk2 ∧ nm = nm2
  | .list _ _ st sp mk pk nm _, .list _ _ st2 sp2 mk2 pk2 nm2 _ =>
    st = st2 ∧ sp = sp2 ∧ mk = mk2 ∧ pk = pk2 ∧ nm = nm2
  | .union ps nb tg os mk pk nm _, .union ps2 nb2 tg2 os2 mk2 pk2 nm2 _ =>
    ps.length = ps2.length ∧ nb = nb2 ∧ tg = tg2 ∧ os = os2 ∧ mk = mk2 ∧
      pk = pk2 ∧ nm = nm2
  | .record fs nb mk pk nm _, .record fs2 nb2 mk2 pk2 nm2 _ =>
    sameKeys (fs.map Prod.fst) (fs2.map Prod.fst) ∧ nb = nb2 ∧ mk = mk2 ∧
      pk = pk2 ∧ nm = nm2
  | .tuple ts nb mk pk nm _, .tuple ts2 nb2 mk2 pk2 nm2 _ =>
    ts.length = ts2.length ∧ nb = nb2 ∧ mk = mk2 ∧ pk = pk2 ∧ nm = nm2
  | .pointer _ nb po mk pk nm _, .pointer _ nb2 po2 mk2 pk2 nm2 _ =>
    nb = nb2 ∧ po = po2 ∧ mk = mk2 ∧ pk = pk2 ∧ nm = nm2
  | _, _ => False

instance (a b : SNode Nat) : Decidable (shallowEq a b) := by
  unfold shallowEq
  cases a <;> cases b <;> simp <;> infer_instance

/-- `Primitive.__eq__` neither reads nor writes the memo. -/
def isPrim : SNode Nat → Bool
  | .prim _ _ _ _ _ _ _ _ => true
  | _ => false

/-- The recursive `__eq__` run as a task list (the pending comparisons of
the source's nested `all(...)` generators, innermost first): pop a pair
`(l, r)`; a Primitive left node compares immediately; otherwise consult
the memo (`memo[id(self)] == id(other)` on a hit), else compare scalar
fields, record `memo[id(self)] = id(other)`, and push the child pairs in
front.  This performs exactly the comparisons of the mutually recursive
source in the same order with the same memo evolution and the same
short-circuit on the first `False`; `fuel` decreases once per comparison
step, so `none` means the bound on the number of steps was exceeded. -/
def eqRun (g1 g2 : SchemaGraph) :
    Nat → List (Nat × Nat) → List (Nat × Nat) → Option (Bool × List (Nat × Nat))
  | 0, _, _ => none
  | _ + 1, memo, [] => some (true, memo)
  | fuel + 1, memo, (l, r) :: rest =>
    if isPrim (g1.node l) then
      if shallowEq (g1.node l) (g2.node r) then eqRun g1 g2 fuel memo rest
      else some (false, memo)
    else
      match mlookup memo l with
      | some r2 =>
        if r2 = r then eqRun g1 g2 fuel memo rest else some (false, memo)
      | none =>
        if shallowEq (g1.node l) (g2.node r) then
          eqRun g1 g2 fuel ((l, r) :: memo)
            (childPairs (g1.node l) (g2.node r) ++ rest)
        else some (false, memo)

/-- A step bound for `eqRun` on left graph `g`: every fresh visit pushes
at most the node's children, and every left node is freshly visited at
most once. -/
def eqSteps (g : SchemaGraph) : Nat :=
  (g.nodes.map (fun n => (childIds n).length)).sum + g.nodes.length + 2

/-- `a == b` on schema graphs: run `__eq__` from the two roots with a
fresh memo and the a-priori step bound as fuel (`none` would mean the
source recursed forever). -/
def schemaEq (g1 g2 : SchemaGraph) : Option Bool :=
  (eqRun g1 g2 (eqSteps g1) [] [(g1.root, g2.root)]).map Prod.fst

/-! ## Delimiter validation (schema.py `_baddelimiter` checks)

`Schema._baddelimiter = re.compile("[a-zA-Z_0-9]")`, consulted with
`.match`, which anchors at the start of the string: only the first
character is ever tested. -/

/-- A character of the class `[a-zA-Z_0-9]`. -/
def baddelimChar (c : Char) : Bool :=
  ('a' ≤ c ∧ c ≤ 'z') ∨ ('A' ≤ c ∧ c ≤ 'Z') ∨ c = '_' ∨ ('0' ≤ c ∧ c ≤ '9')

/-- `Schema._baddelimiter.match(value) is not None`: `re.match` anchors
at position 0, so this holds exactly when the first character is in the
class (the empty string never matches). -/
def baddelimMatch (s : String) : Bool :=
  match s.data with
  | [] => false
  | c :: _ => baddelimChar c

/-- `Schema.generator` (schema.py line 239) raises when the pattern
matches; `true` = the delimiter is accepted. -/
def generatorDelimAccepts (d : String) : Bool :=
  ! baddelimMatch d

/-- `PrefixSuffixPartitioning.delimiter` setter (schema.py line 1871):
same direction as `Schema.generator`. -/
def partitioningDelimAccepts (d : String) : Bool :=
  ! baddelimMatch d

/-- `Dataset.delimiter` setter (schema.py line 1939): raises when
`value is not None and not (isinstance(value, str) and
Schema._baddelimiter.match(value) is not None)` — i.e. a non-`None`
delimiter is accepted exactly when the pattern *does* match. -/
def datasetDelimAccepts : Option String → Bool
  | none => true
  | some s => baddelimMatch s

/-! ## `tomask` (operations.py lines 601-642)

`data` entries are IEEE values: either NaN or a finite number (`Int`
suffices for the comparisons involved, which are exact).  Modelled from
the spec: `oamap.generator.Masked.maskedvalue` (the module is not in
src/) is the reserved "masked" sentinel stored in an index-valued mask;
it is taken to be `-1`, distinct from every valid non-negative index. -/

/-- A floating-point value as `tomask` observes it. -/
inductive FVal where
  | nan
  | val (x : Int)
  deriving DecidableEq

/-- `math.isnan` / `numpy.isnan`. -/
def FVal.isnan : FVal → Bool
  | .nan => true
  | .val _ => false

/-- numpy elementwise `==`: NaN compares unequal to everything. -/
def feq : FVal → FVal → Bool
  | .val a, .val b => a = b
  | _, _ => false

/-- numpy elementwise `<=`/`>=`: comparisons with NaN are false. -/
def fle : FVal → FVal → Bool
  | .val a, .val b => a ≤ b
  | _, _ => false

/-- Modelled from the spec: the masked sentinel
(`oamap.generator.Masked.maskedvalue`). -/
def maskedvalue : Int := -1

/-- `mask[selection] = maskedvalue`. -/
def applySel (mask : List Int) (selection : List Bool) : List Int :=
  (mask.zip selection).map (fun p => if p.2 then maskedvalue else p.1)

/-- The mask `tomask` starts from: a copy of the existing mask when the
node was already nullable, else a synthesized index-valued
`numpy.arange(len(primitive))`. -/
def baseMask (data : List FVal) (nullable : Bool) (maskIn : List Int) : List Int :=
  if nullable then maskIn else (List.range data.length).map Int.ofNat

/-- The Primitive branch of `tomask(data, at, low, high)`: copy the data
buffer, obtain the mask (making the node nullable), compute the selection
(`isnan` when `low` is NaN, elementwise `== low` otherwise; for a range,
error on a NaN endpoint, else `low <= x <= high`), overwrite the selected
mask entries with the sentinel.  Returns (data copy, new mask, new
nullability). -/
def tomaskOp (data : List FVal) (nullable : Bool) (maskIn : List Int)
    (low : FVal) (high : Option FVal) :
    Except String (List FVal × List Int × Bool) :=
  let mask := baseMask data nullable maskIn
  match high with
  | none =>
    let selection :=
      if low.isnan then data.map FVal.isnan else data.map (fun x => feq x low)
    .ok (data, applySel mask selection, true)
  | some h =>
    if low.isnan ∨ h.isnan then
      .error "if a range is specified, neither of the endpoints can be NaN"
    else
      let selection := data.map (fun x => fle low x && fle x h)
      .ok (data, applySel mask selection, true)

/-! ## `parent` and `index` (operations.py lines 502-597)

`parent.fill(starts, stops, pointers)` assigns
`pointers[starts[i]:stops[i]] = i`; `index.fill` assigns
`pointers[start:stop] = numpy.arange(stop - start)`.  Both output arrays
are `numpy.empty(stops.max() - starts.min())`; the unspecified initial
contents are modelled as `-1`.  numpy slice assignment clips to the
array bounds. -/

/-- `arr[lo:hi] = v` (slice assignment, clipped to the array). -/
def sliceAssign (arr : List Int) (lo hi : Nat) (v : Int) : List Int :=
  arr.mapIdx (fun j x => if lo ≤ j ∧ j < hi then v else x)

/-- `arr[lo:hi] = numpy.arange(hi - lo)`. -/
def sliceArange (arr : List Int) (lo hi : Nat) : List Int :=
  arr.mapIdx (fun j x => if lo ≤ j ∧ j < hi then Int.ofNat (j - lo) else x)

/-- `starts.min()` (0 on an empty array, which numpy rejects anyway). -/
def minList : List Nat → Nat
  | [] => 0
  | x :: xs => xs.foldl Nat.min x

/-- `stops.max()`. -/
def maxList : List Nat → Nat
  | [] => 0
  | x :: xs => xs.foldl Nat.max x

/-- The pointer array built by `parent`. -/
def parentOp (starts stops : List Nat) : List Int :=
  (List.range starts.length).foldl
    (fun arr i => sliceAssign arr (starts.getD i 0) (stops.getD i 0) (Int.ofNat i))
    (List.replicate (maxList stops - minList starts) (-1))

/-- The index array built by `index`. -/
def indexOp (starts stops : List Nat) : List Int :=
  (List.range starts.length).foldl
    (fun arr i => sliceArange arr (starts.getD i 0) (stops.getD i 0))
    (List.replicate (maxList stops - minList starts) (-1))

/-! ## `flatten` (operations.py lines 648-676) -/

/-- numpy fancy index `o - 1` on int arrays: `0 - 1 = -1` wraps to the
last element. -/
def wrapPred (len o : Nat) : Nat :=
  if o = 0 then len - 1 else o - 1

/-- `flatten` on a List(List(X)) given the four offset arrays: raise
`NotImplementedError` unless `innerstarts[1:] == innerstops[:-1]`
(contiguity); otherwise the collapsed list's offsets are
`innerstarts[outerstarts]` and `innerstops[outerstops - 1]`. -/
def flattenOp (outerstarts outerstops innerstarts innerstops : List Nat) :
    Except String (List Nat × List Nat) :=
  if innerstarts.drop 1 = innerstops.dropLast then
    .ok (outerstarts.map (fun i => innerstarts.getD i 0),
      outerstops.map (fun o => innerstops.getD (wrapPred innerstops.length o) 0))
  else
    .error "inner arrays are not contiguous: flatten would require the creation of pointers"

/-! ## `filter` (operations.py lines 682-774)

The synthesized fill loop scans every list slot `[viewstarts[i],
viewstops[i])`, appends each absolute index `j` whose element satisfies
the predicate to `pointers`, and records the running count in `stops[i]`.
The predicate on the proxy element `view[j]` is abstracted as a predicate
on the absolute index `j`. -/

/-- `range(a, b)` as absolute indices. -/
def rangeFromTo (a b : Nat) : List Nat :=
  (List.range (b - a)).map (a + ·)

/-- The fill loop: returns (per-slot cumulative stops, surviving
absolute indices). -/
def filterLoop (p : Nat → Bool) (viewstarts viewstops : List Nat) :
    List Nat × List Nat :=
  (List.range viewstarts.length).foldl
    (fun st i =>
      let keep := (rangeFromTo (viewstarts.getD i 0) (viewstops.getD i 0)).filter p
      (st.1 ++ [st.2.length + keep.length], st.2 ++ keep))
    ([], [])

/-- A schema kind as far as `filter`'s content rewriting is concerned. -/
inductive SK where
  | prim (dtype : String)
  | listS (content : SK)
  | pointerS (target : SK)
  | record
  deriving DecidableEq

/-- The content/buffer rewriting of `filter`: the new content is
`Pointer(content)` (`listnode.content = Pointer(listnode.content)`), but
when the old content was already a Pointer the surviving indices are
composed through its positions array (`pointers = innerpointers[pointers]`)
and the double Pointer is collapsed
(`listnode.content.target = listnode.content.target.target`).
Returns (new content schema, stops, positions array of the new Pointer). -/
def filterOp (content : SK) (innerpositions : List Int) (p : Nat → Bool)
    (viewstarts viewstops : List Nat) : SK × List Nat × List Int :=
  let res := filterLoop p viewstarts viewstops
  match content with
  | .pointerS t =>
    (.pointerS t, res.1, res.2.map (fun j => innerpositions.getD j 0))
  | c => (.pointerS c, res.1, res.2.map Int.ofNat)

/-! ## `merge`'s list-identity precondition (operations.py lines 475-486) -/

/-- The identity of a List node's storage as `merge` compares it:
`(namespace, starts, stops)` buffer names. -/
structure ListIdent where
  ns : String
  starts : String
  stops : String
  deriving DecidableEq

/-- The precondition checks of `merge` on the gathered list nodes: at
least one path must match, and every list must have the same
`(namespace, starts, stops)` as the first — the buffer *names*, never
the runtime lengths (the length-comparing fallback is commented out in
the source). -/
def mergeCheck (listnodes : List ListIdent) : Except String Unit :=
  match listnodes with
  | [] => .error "at least one path must match schema elements"
  | l0 :: rest =>
    if rest.all (fun x => x.ns = l0.ns ∧ x.starts = l0.starts ∧ x.stops = l0.stops) then
      .ok ()
    else
      .error "some of the paths refer to lists of different names"

/-! ## Combiners (operations.py lines 1107-1126 and 1197-1219)

A caller-supplied future is modelled as its eventual value plus the
(arbitrary) order in which it resolves; `result` below never consults
the resolve order, because the source iterates `self._futures` — the
submission-order list — and blocks on each in turn. -/

/-- A resolved future: its value and its completion rank. -/
structure Fut (α : Type) where
  value : α
  resolveOrder : Nat

/-- `MapCombiner.result`: collect `future.result()` in submission order,
then `numpy.concatenate`. -/
def mapCombinerResult (futures : List (Fut (List Int))) : List Int :=
  ((futures.foldl (fun results f => results ++ [f.value]) []).foldl (· ++ ·) [])

/-- `ReduceCombiner.result`: fold `result = result + future.result()`
over the futures in submission order, starting from `None`. -/
def reduceCombinerResult (futures : List (Fut Int)) : Option Int :=
  futures.foldl
    (fun result f =>
      match result with
      | none => some f.value
      | some r => some (r + f.value))
    none

/-! ## Partitionings and Datasets (schema.py lines 1749-2152)

`Partitioning.tojson()` is `{classname: args}`; `fromjson` dispatches on
the class name and applies the constructor to the argument list.
`ExplicitPartitioning` partition dicts and `Dataset.metadata` are opaque
payloads here. -/

/-- A positional argument of a partitioning's JSON form. -/
inductive PArg where
  | ints (xs : List Int)
  | str (s : String)
  | dicts (ds : List (List (String × String)))
  deriving DecidableEq

/-- The partitioning objects. -/
inductive PartM where
  | explicitPart (offsets : List Int) (partitions : List (List (String × String)))
  | prefixPart (offsets : List Int) (delimiter : String)
  | suffixPart (offsets : List Int) (delimiter : String)
  | externalPart (lookup : String)
  deriving DecidableEq

/-- The `offsets` setter: `x >= last` starting from `last = 0`, so the
offsets must be non-negative and non-decreasing. -/
def offsetsOkFrom : Int → List Int → Bool
  | _, [] => true
  | last, x :: xs => last ≤ x && offsetsOkFrom x xs

/-- `Partitioning.offsets` validation. -/
def offsetsOk (xs : List Int) : Bool :=
  offsetsOkFrom 0 xs

/-- `Partitioning.tojson()`: `{classname: self._tojsonargs()}`;
`PrefixSuffixPartitioning._tojsonargs` omits the delimiter when it is the
default `"-"`. -/
def partTojson : PartM → String × List PArg
  | .explicitPart offs ps => ("ExplicitPartitioning", [.ints offs, .dicts ps])
  | .prefixPart offs d =>
    ("PrefixPartitioning", if d = "-" then [.ints offs] else [.ints offs, .str d])
  | .suffixPart offs d =>
    ("SuffixPartitioning", if d = "-" then [.ints offs] else [.ints offs, .str d])
  | .externalPart lk => ("ExternalPartitioning", [.str lk])

/-- `Partitioning.fromjson`: look the class up and apply it to the
arguments; the constructors re-run the `offsets` and (for
prefix/suffix) `delimiter` setter validations.  An unknown class or an
argument list no constructor accepts is an error. -/
def partFromjson : String × List PArg → Except String PartM
  | ("ExplicitPartitioning", [.ints offs, .dicts ps]) =>
    if offsetsOk offs then .ok (.explicitPart offs ps)
    else .error "offsets must be an iterable of increasing integers"
  | ("PrefixPartitioning", [.ints offs]) =>
    if offsetsOk offs then .ok (.prefixPart offs "-")
    else .error "offsets must be an iterable of increasing integers"
  | ("PrefixPartitioning", [.ints offs, .str d]) =>
    if offsetsOk offs then
      if partitioningDelimAccepts d then .ok (.prefixPart offs d)
      else .error "delimiters must not contain identifier characters"
    else .error "offsets must be an iterable of increasing integers"
  | ("SuffixPartitioning", [.ints offs]) =>
    if offsetsOk offs then .ok (.suffixPart offs "-")
    else .error "offsets must be an iterable of increasing integers"
  | ("SuffixPartitioning", [.ints offs, .str d]) =>
    if offsetsOk offs then
      if partitioningDelimAccepts d then .ok (.suffixPart offs d)
      else .error "delimiters must not contain identifier characters"
    else .error "offsets must be an iterable of increasing integers"
  | ("ExternalPartitioning", [.str lk]) => .ok (.externalPart lk)
  | (cn, _) => .error ("partitioning class " ++ cn ++ " not found")

/-- The validity a `PartM` acquired by passing its constructor once. -/
def partOk : PartM → Bool
  | .explicitPart offs _ => offsetsOk offs
  | .prefixPart offs d => offsetsOk offs && partitioningDelimAccepts d
  | .suffixPart offs d => offsetsOk offs && partitioningDelimAccepts d
  | .externalPart _ => true

/-- Is the schema root a non-nullable List
(`isinstance(value, List) and not value.nullable`)? -/
def rootIsNonNullList (g : SchemaGraph) : Bool :=
  match g.node g.root with
  | .list _ false _ _ _ _ _ _ => true
  | _ => false

/-- A `Dataset` object (schema.py line 1910): `pfx` is the source's
`prefix` attribute. -/
structure DatasetM where
  schema : SchemaGraph
  pfx : Option String
  delimiter : Option String
  extension : Option (Sum String (List String))
  partitioning : Option PartM
  packing : Option String
  name : Option String
  doc : Option String
  metadata : Option String
  deriving DecidableEq

/-- A value of the Dataset JSON object. -/
inductive DJVal where
  | jstr (s : String)
  | jschema (j : JSchema)
  | jext (e : Sum String (List String))
  | jpart (p : String × List PArg)
  | jmeta (m : String)

/-- The JSON object is a keyed dictionary. -/
abbrev DJObj : Type := List (String × DJVal)

/-- `data.get(key)` on the JSON object. -/
def dlookup : DJObj → String → Option DJVal
  | [], _ => none
  | (k, v) :: rest, key => if key = k then some v else dlookup rest key

/-- A key that is present exactly when the attribute is not `None`. -/
def optKey (k : String) (v : Option DJVal) : DJObj :=
  match v with
  | none => []
  | some x => [(k, x)]

/-- The JSON object `Dataset.tojson(explicit=False)` emits, given the
already-serialized schema: keys in source order, each non-`schema` key
present exactly when the attribute is not `None`. -/
def datasetTojsonBody (d : DatasetM) (js : JSchema) : DJObj :=
  ("schema", .jschema js) ::
    (optKey "prefix" (d.pfx.map .jstr) ++
     (optKey "delimiter" (d.delimiter.map .jstr) ++
      (optKey "extension" (d.extension.map .jext) ++
       (optKey "partitioning" (d.partitioning.map (fun p => .jpart (partTojson p))) ++
        (optKey "packing" (d.packing.map .jstr) ++
         (optKey "name" (d.name.map .jstr) ++
          (optKey "doc" (d.doc.map .jstr) ++
           optKey "metadata" (d.metadata.map .jmeta))))))))

/-- `Dataset.tojson()` (schema.py line 2109). -/
def datasetTojson (d : DatasetM) (fuel : Nat) : Option DJObj :=
  match schemaTojson d.schema fuel with
  | none => none
  | some js => some (datasetTojsonBody d js)

/-- `data.get(key, None)` expected to be a string attribute. -/
def getStrOpt (obj : DJObj) (k : String) : Except String (Option String) :=
  match dlookup obj k with
  | none => .ok none
  | some (.jstr s) => .ok (some s)
  | some _ => .error (k ++ " must be None or a string")

/-- The tail of `Dataset.fromjson`: read the remaining keys (`"data"`
for the name!) and run the constructor's validations (`delimiter`
setter, then the partitioning/schema compatibility check). -/
def datasetBuild (g : SchemaGraph) (pfx delim : Option String)
    (part : Option PartM) (obj : DJObj) : Except String DatasetM :=
  match getStrOpt obj "packing" with
  | .error e => .error e
  | .ok packing =>
    match getStrOpt obj "data" with
    | .error e => .error e
    | .ok nameV =>
      match getStrOpt obj "doc" with
      | .error e => .error e
      | .ok doc =>
        match (match dlookup obj "metadata" with
               | none => Except.ok none
               | some (.jmeta m) => Except.ok (some m)
               | some _ => Except.error "metadata must be None or a dict") with
        | .error e => .error e
        | .ok meta =>
          if datasetDelimAccepts delim then
            if part.isSome && ! rootIsNonNullList g then
              .error "non-trivial partitionings can only be used on data whose schema is a non-nullable List"
            else
              .ok ⟨g, pfx, delim, none, part, packing, nameV, doc, meta⟩
          else
            .error "delimiters must not contain identifier characters"

/-- `Dataset.fromjson(data)` (schema.py line 2138) followed by the
`Dataset` constructor's setter validations.  Note: the name is read from
the JSON key `"data"` (which `tojson` never writes), and the
`"extension"` entry is read into a local but never passed to the
constructor, so the result's `extension` is always `None`. -/
def datasetFromjson (obj : DJObj) : Except String DatasetM :=
  match dlookup obj "schema" with
  | some (.jschema sj) =>
    match schemaFromjson sj with
    | .error e => .error e
    | .ok g =>
      match getStrOpt obj "prefix" with
      | .error e => .error e
      | .ok pfx =>
        match getStrOpt obj "delimiter" with
        | .error e => .error e
        | .ok delim =>
          let _extensions := dlookup obj "extension"
          match dlookup obj "partitioning" with
          | some (.jpart pj) =>
            match partFromjson pj with
            | .error e => .error e
            | .ok p => datasetBuild g pfx delim (some p) obj
          | some _ => .error "partitioning must be None or a Partitioning"
          | none => datasetBuild g pfx delim none obj
  | _ => .error "JSON for Dataset must have a schema"

/-- The validations a `DatasetM` passed when it was constructed through
the source's setters. -/
def datasetValid (d : DatasetM) : Bool :=
  datasetDelimAccepts d.delimiter &&
    (match d.partitioning with
     | none => true
     | some p => rootIsNonNullList d.schema && partOk p)

/-! ## Proof apparatus for the equality analysis -/

/-- The valid left ids not yet in the memo. -/
def unmemoed (g : SchemaGraph) (memo : List (Nat × Nat)) : List Nat :=
  (List.range g.nodes.length).filter (fun i => (mlookup memo i).isNone)

/-- Number of children of node `i`. -/
def childCountAt (g : SchemaGraph) (i : Nat) : Nat :=
  (childIds (g.node i)).length

/-- Total children of all valid unmemoed nodes: the pending work an
`eqRun` memo state can still schedule. -/
def sumUnmem (g : SchemaGraph) (memo : List (Nat × Nat)) : Nat :=
  ((unmemoed g memo).map (childCountAt g)).sum

/-- The memo only ever grows (keys are never removed or rebound). -/
def memoExt (m m' : List (Nat × Nat)) : Prop :=
  ∀ i v, mlookup m i = some v → mlookup m' i = some v

/-- Every memo entry maps an id to itself (the self-comparison case). -/
def diagMemo (m : List (Nat × Nat)) : Prop :=
  ∀ p ∈ m, p.2 = p.1

/-! ## Concrete instances -/

/-- `p = Primitive("float64"); Record({"a": p, "b": p})` — a Record with
one *shared* all-default Primitive child. -/
def sharedPrimGraph : SchemaGraph :=
  ⟨[.record [("a", 1), ("b", 1)] false none none none none,
    .prim "float64" [] false none none none none none], 0⟩

/-- The JSON `sharedPrimGraph.tojson()` produces: the first occurrence of
the shared Primitive collapsed to the bare dtype string, losing its
label; the second occurrence a `"#0"` back-reference. -/
def sharedPrimJson : JSchema :=
  .jrecord [("a", .jstr "float64"), ("b", .jstr "#0")]
    none none none none none none

/-- `x = List(Primitive("float64")); Tuple([x, x])` — shared child. -/
def gShared : SchemaGraph :=
  ⟨[.tuple [1, 1] false none none none none,
    .list 2 false none none none none none none,
    .prim "float64" [] false none none none none none], 0⟩

/-- `Tuple([List(Primitive("float64")), List(Primitive("float64"))])` —
two distinct but structurally equal children (the Primitive may be
shared; only the Lists are distinct). -/
def gUnshared : SchemaGraph :=
  ⟨[.tuple [1, 2] false none none none none,
    .list 3 false none none none none none none,
    .list 3 false none none none none none none,
    .prim "float64" [] false none none none none none], 0⟩

/-- A Dataset over `sharedPrimGraph` with a name set. -/
def bugDataset : DatasetM :=
  ⟨sharedPrimGraph, some "object", none, none, none, none,
    some "mydata", some "docstring", none⟩

/-- `List(Primitive("float64"))`. -/
def gList : SchemaGraph :=
  ⟨[.list 1 false none none none none none none,
    .prim "float64" [] false none none none none none], 0⟩

/-- The JSON of `gList`. -/
def jList : JSchema :=
  .jlist (.jstr "float64") none none none none none none none none

/-- The reconstruction of `jList` (children allocated first). -/
def gListRT : SchemaGraph :=
  ⟨[.prim "float64" [] false none none none none none,
    .list 0 false none none none none none none], 1⟩

/-- A well-formed partitioned Dataset over `gList` with name, extension
and metadata set. -/
def witDataset : DatasetM :=
  ⟨gList, some "object", none, some (Sum.inl "oamap.extension.common"),
    some (.prefixPart [0, 5] "-"), none, some "aname", none, some "meta"⟩

/-! # Theorems -/

/-- C1: the round trip `Schema.fromjson(Schema.tojson(S))` does *not*
return for every schema `S`: for the well-formed schema
`Record({"a": p, "b": p})` with a shared all-default Primitive `p`,
`tojson` collapses the first occurrence of `p` to the bare dtype string
(losing its label) while still emitting the `"#0"` back-reference for
the second occurrence, so `fromjson` raises
`TypeError("unresolved label: '#0'")` instead of reproducing `S`. -/
theorem schema_roundtrip_bug :
    wfB sharedPrimGraph = true ∧
    schemaTojson sharedPrimGraph 20 = some sharedPrimJson ∧
    schemaFromjson sharedPrimJson = .error "unresolved label: #0" := by
  refine ⟨by decide, by rfl, ?_⟩
  simp +decide [schemaFromjson, sharedPrimJson, phase1, phase1Fields,
    resolveAll, resolveNode, resolveChild, resolveFields, regLabel,
    startsWithHash, Except.map]

/-- No `SK` tree is its own Pointer wrapping. -/
theorem skPointer_ne : ∀ t : SK, SK.pointerS t ≠ t := by
  intro t
  induction t with
  | prim s => intro h; cases h
  | listS c ih => intro h; cases h
  | pointerS t ih => intro h; injection h with h; exact ih h
  | record => intro h; cases h

/-- C6: filtering a list whose content is already a Pointer (the output
of a previous filter) yields `List(Pointer(target))` — the freshly
wrapped Pointer's target is collapsed one level
(`listnode.content.target = listnode.content.target.target`), never
`List(Pointer(Pointer(target)))` — and the surviving-index array is
composed through the existing positions array
(`pointers = innerpointers[pointers]`). -/
theorem filter_composes (t : SK) (innerpositions : List Int)
    (p : Nat → Bool) (vs ve : List Nat) :
    (filterOp (.pointerS t) innerpositions p vs ve).1 = .pointerS t ∧
    (filterOp (.pointerS t) innerpositions p vs ve).2.2
      = (filterLoop p vs ve).2.map (fun j => innerpositions.getD j 0) ∧
    (filterOp (.pointerS t) innerpositions p vs ve).1
      ≠ .pointerS (.pointerS t) := by
  refine ⟨rfl, rfl, ?_⟩
  intro h
  injection h with h
  exact skPointer_ne t h.symm

/-- C7: `merge` accepts the gathered list nodes exactly when they all
carry the first node's `(namespace, starts, stops)` buffer names;
nothing else (in particular not the runtime lengths) is consulted, so
two same-length lists with differently named buffers are rejected;
and zero matched paths is its own error. -/
theorem merge_requires_identical_names (l0 : ListIdent) (rest : List ListIdent) :
    (mergeCheck (l0 :: rest) = .ok () ↔ ∀ x ∈ rest, x = l0) ∧
    ((∃ x ∈ rest, x ≠ l0) →
      mergeCheck (l0 :: rest)
        = .error "some of the paths refer to lists of different names") ∧
    mergeCheck [] = .error "at least one path must match schema elements" ∧
    mergeCheck [⟨"ns", "starts-1", "stops-1"⟩, ⟨"ns", "starts-2", "stops-2"⟩]
      = .error "some of the paths refer to lists of different names" := by
  obtain ⟨n0, s0, p0⟩ := l0
  have hiff : (rest.all fun x =>
      decide (x.ns = n0 ∧ x.starts = s0 ∧ x.stops = p0)) = true
      ↔ ∀ x ∈ rest, x = ⟨n0, s0, p0⟩ := by
    rw [List.all_eq_true]
    constructor
    · intro h x hx
      obtain ⟨a, b, c⟩ := x
      have h3 := of_decide_eq_true (h _ hx)
      simp only at h3
      obtain ⟨e1, e2, e3⟩ := h3
      subst e1; subst e2; subst e3; rfl
    · intro h x hx
      rw [h x hx]
      exact decide_eq_true ⟨rfl, rfl, rfl⟩
  have hred : mergeCheck (⟨n0, s0, p0⟩ :: rest)
      = if (rest.all fun x =>
          decide (x.ns = n0 ∧ x.starts = s0 ∧ x.stops = p0)) = true
        then Except.ok ()
        else Except.error "some of the paths refer to lists of different names" := rfl
  refine ⟨?_, ?_, rfl, rfl⟩
  · rw [hred]
    split_ifs with hc
    · exact iff_of_true rfl (hiff.mp hc)
    · exact iff_of_false (by simp) (fun hall => hc (hiff.mpr hall))
  · intro ⟨x, hx, hne⟩
    rw [hred]
    split_ifs with hc
    · exact absurd (hiff.mp hc x hx) hne
    · rfl

/-- C9: `MapCombiner.result` concatenates the column buffers of its
futures in submission order (the stored `self._futures` list), whatever
order they resolve in, and `ReduceCombiner.result` left-folds the
tallies in the same submission order. -/
theorem combiner_submission_order (a b c : List Int) (r1 r2 r3 : Nat)
    (futs : List (Fut Int)) :
    mapCombinerResult [⟨a, r1⟩, ⟨b, r2⟩, ⟨c, r3⟩] = a ++ b ++ c ∧
    reduceCombinerResult futs =
      (match futs.map Fut.value with
       | [] => none
       | v :: vs => some (vs.foldl (· + ·) v)) := by
  constructor
  · simp [mapCombinerResult]
  · have key : ∀ (l : List (Fut Int)) (v : Int),
        l.foldl (fun result f =>
          match result with
          | none => some f.value
          | some r => some (r + f.value)) (some v)
          = some ((l.map Fut.value).foldl (· + ·) v) := by
      intro l
      induction l with
      | nil => intro v; rfl
      | cons f fs ih => intro v; simpa using ih (v + f.value)
    cases futs with
    | nil => rfl
    | cons f fs =>
      simpa [reduceCombinerResult] using key fs f.value

/-- C8: the delimiter checks are anchored at the first character
(`re.match`), and the `Dataset.delimiter` setter's condition is
*inverted*: it accepts a delimiter exactly when its first character IS an
identifier/digit character, rejecting the perfectly valid `"-"` — the
opposite of `Schema.generator` and the `PrefixSuffixPartitioning`
setter, and the opposite of what its own error message and the spec
say.  Moreover even `Schema.generator` accepts `"-a"`, which contains
an identifier character past position 0. -/
theorem delimiter_validation_bug :
    datasetDelimAccepts (some "-") = false ∧
    datasetDelimAccepts (some "x") = true ∧
    datasetDelimAccepts none = true ∧
    generatorDelimAccepts "-" = true ∧
    generatorDelimAccepts "x" = false ∧
    generatorDelimAccepts "_" = false ∧
    generatorDelimAccepts "7" = false ∧
    generatorDelimAccepts "-a" = true ∧
    partitioningDelimAccepts "-" = true ∧
    partitioningDelimAccepts "x" = false ∧
    partitioningDelimAccepts "-a" = true := by
  decide

/-- Witness for C7 at a concrete input: two same-shaped lists whose
buffers differ only in name are rejected. -/
theorem merge_requires_identical_names_witness :
    (∃ x ∈ [(⟨"ns", "starts-2", "stops-2"⟩ : ListIdent)],
        x ≠ (⟨"ns", "starts-1", "stops-1"⟩ : ListIdent)) ∧
    mergeCheck [⟨"ns", "starts-1", "stops-1"⟩, ⟨"ns", "starts-2", "stops-2"⟩]
      = .error "some of the paths refer to lists of different names" :=
  ⟨⟨⟨"ns", "starts-2", "stops-2"⟩, by simp, by decide⟩,
   (merge_requires_identical_names ⟨"ns", "starts-1", "stops-1"⟩
       [⟨"ns", "starts-2", "stops-2"⟩]).2.1
     ⟨⟨"ns", "starts-2", "stops-2"⟩, by simp, by decide⟩⟩

/-- Pointwise value of `mask[selection] = maskedvalue`. -/
theorem getD_applySel (mask : List Int) (sel : List Bool) (i : Nat)
    (h1 : i < mask.length) (h2 : i < sel.length) :
    (applySel mask sel).getD i 0 =
      if sel.getD i false then maskedvalue else mask.getD i 0 := by
  have hlen : i < (applySel mask sel).length := by
    simp only [applySel, List.length_map, List.length_zip]
    omega
  rw [List.getD_eq_getElem _ _ hlen, List.getD_eq_getElem _ _ h1,
    List.getD_eq_getElem _ _ h2]
  simp [applySel, List.getElem_zip]

/-- Length of the starting mask. -/
theorem length_baseMask (data : List FVal) (nullable : Bool) (maskIn : List Int)
    (hm : nullable = true → maskIn.length = data.length) :
    (baseMask data nullable maskIn).length = data.length := by
  cases nullable with
  | true => simpa [baseMask] using hm rfl
  | false => simp [baseMask]

/-- Pointwise value of a mapped selection. -/
theorem getD_map_sel (data : List FVal) (f : FVal → Bool) (i : Nat)
    (h : i < data.length) :
    (data.map f).getD i false = f (data.getD i .nan) := by
  have hlen : i < (data.map f).length := by simpa using h
  rw [List.getD_eq_getElem _ _ hlen, List.getD_eq_getElem _ _ h]
  simp

/-- C3: `tomask` on a Primitive copies the data buffer, reuses the copy
of the existing mask when the node was nullable (else makes it nullable
with a synthesized index-valued mask), and overwrites with the masked
sentinel exactly the entries selected NaN-aware by `low` — or, when
`high` is given, exactly the entries within `[low, high]` — while a
range with a NaN endpoint is an error; on `[1,2,NaN,4]` with `low=NaN`
exactly index 2 is masked, and on `[1,2,3,4]` with `low=2, high=3`
exactly indices 1 and 2 are. -/
theorem tomask_spec (data : List FVal) (nullable : Bool) (maskIn : List Int)
    (low : FVal) (hm : nullable = true → maskIn.length = data.length) :
    (∀ i, i < data.length →
      ∃ m, tomaskOp data nullable maskIn low none = .ok (data, m, true) ∧
        (((low = .nan ∧ data.getD i .nan = .nan) ∨
          (∃ x : Int, low = .val x ∧ data.getD i .nan = .val x) →
            m.getD i 0 = maskedvalue) ∧
         (¬ ((low = .nan ∧ data.getD i .nan = .nan) ∨
             (∃ x : Int, low = .val x ∧ data.getD i .nan = .val x)) →
            m.getD i 0 = (baseMask data nullable maskIn).getD i 0))) ∧
    (∀ hi, low = .nan ∨ hi = .nan →
      tomaskOp data nullable maskIn low (some hi)
        = .error "if a range is specified, neither of the endpoints can be NaN") ∧
    (∀ lo hi : Int, ∀ i, i < data.length →
      ∃ m, tomaskOp data nullable maskIn (.val lo) (some (.val hi))
          = .ok (data, m, true) ∧
        (((∃ x : Int, data.getD i .nan = .val x ∧ lo ≤ x ∧ x ≤ hi) →
            m.getD i 0 = maskedvalue) ∧
         (¬ (∃ x : Int, data.getD i .nan = .val x ∧ lo ≤ x ∧ x ≤ hi) →
            m.getD i 0 = (baseMask data nullable maskIn).getD i 0))) ∧
    tomaskOp [.val 1, .val 2, .nan, .val 4] false [] .nan none
      = .ok ([.val 1, .val 2, .nan, .val 4], [0, 1, maskedvalue, 3], true) ∧
    tomaskOp [.val 1, .val 2, .val 3, .val 4] false [] (.val 2) (some (.val 3))
      = .ok ([.val 1, .val 2, .val 3, .val 4],
          [0, maskedvalue, maskedvalue, 3], true) := by
  have hbase := length_baseMask data nullable maskIn hm
  refine ⟨?_, ?_, ?_, rfl, rfl⟩
  · intro i hilen
    cases low with
    | nan =>
      refine ⟨applySel (baseMask data nullable maskIn) (data.map FVal.isnan),
        by simp [tomaskOp, FVal.isnan], ?_, ?_⟩
      · intro hsel
        rw [getD_applySel _ _ _ (by omega) (by simpa using hilen),
          getD_map_sel _ _ _ hilen]
        rcases hsel with ⟨_, hd⟩ | ⟨x, hx, _⟩
        · rw [hd]; rfl
        · exact absurd hx (by intro h; cases h)
      · intro hsel
        rw [getD_applySel _ _ _ (by omega) (by simpa using hilen),
          getD_map_sel _ _ _ hilen]
        rcases hd : data.getD i .nan with _ | x
        · exact absurd (Or.inl ⟨rfl, hd⟩) hsel
        · rfl
    | val v =>
      refine ⟨applySel (baseMask data nullable maskIn)
          (data.map (fun x => feq x (.val v))),
        by simp [tomaskOp, FVal.isnan], ?_, ?_⟩
      · intro hsel
        rw [getD_applySel _ _ _ (by omega) (by simpa using hilen),
          getD_map_sel _ _ _ hilen]
        rcases hsel with ⟨hl, _⟩ | ⟨x, hx, hd⟩
        · exact absurd hl (by intro h; cases h)
        · injection hx with hx
          rw [hd, hx]
          simp [feq]
      · intro hsel
        rw [getD_applySel _ _ _ (by omega) (by simpa using hilen),
          getD_map_sel _ _ _ hilen]
        rcases hd : data.getD i .nan with _ | x
        · rfl
        · have hxv : ¬ x = v := by
            intro h
            exact hsel (Or.inr ⟨x, by rw [h], hd⟩)
          simp [feq, hxv]
  · intro hi hnan
    rcases hnan with h | h
    · subst h
      simp [tomaskOp, FVal.isnan]
    · subst h
      cases low <;> simp [tomaskOp, FVal.isnan]
  · intro lo hi i hilen
    refine ⟨applySel (baseMask data nullable maskIn)
        (data.map (fun x => fle (.val lo) x && fle x (.val hi))),
      by simp [tomaskOp, FVal.isnan], ?_, ?_⟩
    · intro hsel
      rw [getD_applySel _ _ _ (by omega) (by simpa using hilen),
        getD_map_sel _ _ _ hilen]
      obtain ⟨x, hd, h1, h2⟩ := hsel
      rw [hd]
      simp [fle, h1, h2]
    · intro hsel
      rw [getD_applySel _ _ _ (by omega) (by simpa using hilen),
        getD_map_sel _ _ _ hilen]
      rcases hd : data.getD i .nan with _ | x
      · rfl
      · have : ¬ (lo ≤ x ∧ x ≤ hi) := by
          intro ⟨h1, h2⟩
          exact hsel ⟨x, hd, h1, h2⟩
        rcases Decidable.not_and_iff_or_not.mp this with h | h <;>
          simp [fle, h]

/-- Witness for C3: the NaN-masking example instantiated. -/
theorem tomask_spec_witness :
    ((false : Bool) = true →
      ([] : List Int).length = ([.val 1, .val 2, .nan, .val 4] : List FVal).length) ∧
    tomaskOp [.val 1, .val 2, .nan, .val 4] false [] .nan none
      = .ok ([.val 1, .val 2, .nan, .val 4], [0, 1, maskedvalue, 3], true) :=
  ⟨by simp, (tomask_spec [.val 1, .val 2, .nan, .val 4] false [] .nan
      (by simp)).2.2.2.1⟩

/-- Generic length preservation for the per-slot fill folds. -/
theorem foldRange_length (step : List Int → Nat → List Int)
    (hlen : ∀ arr i, (step arr i).length = arr.length) :
    ∀ (k : Nat) (arr : List Int),
      ((List.range k).foldl step arr).length = arr.length := by
  intro k
  induction k with
  | zero => intro arr; rfl
  | succ k ih =>
    intro arr
    rw [List.range_succ, List.foldl_append]
    simp [hlen, ih]

/-- Positions no processed slot covers keep their current value. -/
theorem foldRange_getD_untouched (step : List Int → Nat → List Int)
    (cov : Nat → Nat → Bool) (f : Nat → Nat → Int)
    (hlen : ∀ arr i, (step arr i).length = arr.length)
    (hstep : ∀ arr i j, j < arr.length →
      (step arr i).getD j 0 = if cov i j then f i j else arr.getD j 0) :
    ∀ (k : Nat) (arr : List Int) (j : Nat), j < arr.length →
      (∀ i, i < k → cov i j = false) →
      ((List.range k).foldl step arr).getD j 0 = arr.getD j 0 := by
  intro k
  induction k with
  | zero => intro arr j _ _; rfl
  | succ k ih =>
    intro arr j hj huncov
    rw [List.range_succ, List.foldl_append]
    simp only [List.foldl_cons, List.foldl_nil]
    rw [hstep _ _ _ (by rw [foldRange_length step hlen]; exact hj),
      huncov k (Nat.lt_succ_self k)]
    simp only [Bool.false_eq_true, if_false]
    exact ih arr j hj (fun i hik => huncov i (Nat.lt_succ_of_lt hik))

/-- A position covered by slot `i` and by no later processed slot ends
with slot `i`'s value. -/
theorem foldRange_getD_covered (step : List Int → Nat → List Int)
    (cov : Nat → Nat → Bool) (f : Nat → Nat → Int)
    (hlen : ∀ arr i, (step arr i).length = arr.length)
    (hstep : ∀ arr i j, j < arr.length →
      (step arr i).getD j 0 = if cov i j then f i j else arr.getD j 0) :
    ∀ (k : Nat) (arr : List Int) (i j : Nat), j < arr.length →
      i < k → cov i j = true →
      (∀ i2, i < i2 → i2 < k → cov i2 j = false) →
      ((List.range k).foldl step arr).getD j 0 = f i j := by
  intro k
  induction k with
  | zero => intro arr i j _ hik; omega
  | succ k ih =>
    intro arr i j hj hik hcov hlater
    rw [List.range_succ, List.foldl_append]
    simp only [List.foldl_cons, List.foldl_nil]
    rw [hstep _ _ _ (by rw [foldRange_length step hlen]; exact hj)]
    rcases Nat.lt_succ_iff_lt_or_eq.mp hik with hik | hik
    · rw [hlater k (by omega) (Nat.lt_succ_self k)]
      simp only [Bool.false_eq_true, if_false]
      exact ih arr i j hj hik hcov (fun i2 h1 h2 => hlater i2 h1 (by omega))
    · subst hik
      rw [hcov]
      simp

/-- Every entry of a list bounds `maxList`x. -/
theorem le_maxList : ∀ (l : List Nat) (x : Nat), x ∈ l → x ≤ maxList l := by
  have key : ∀ (l : List Nat) (a : Nat),
      a ≤ l.foldl Nat.max a ∧ ∀ x ∈ l, x ≤ l.foldl Nat.max a := by
    intro l
    induction l with
    | nil => intro a; exact ⟨Nat.le_refl a, by simp⟩
    | cons y ys ih =>
      intro a
      refine ⟨?_, ?_⟩
      · exact le_trans (Nat.le_max_left a y) (ih (Nat.max a y)).1
      · intro x hx
        rcases List.mem_cons.mp hx with h | h
        · subst h
          exact le_trans (Nat.le_max_right a x) (ih (Nat.max a x)).1
        · exact (ih (Nat.max a y)).2 x h
  intro l x hx
  cases l with
  | nil => cases hx
  | cons y ys =>
    rcases List.mem_cons.mp hx with h | h
    · subst h
      exact (key ys x).1
    · exact (key ys y).2 x h

/-- A `getD` at a valid index is a member. -/
theorem getD_mem (l : List Nat) (i : Nat) (h : i < l.length) :
    l.getD i 0 ∈ l := by
  rw [List.getD_eq_getElem _ _ h]
  exact l.getElem_mem h

/-- Chained monotonicity of sorted slot boundaries. -/
theorem slots_chain (starts stops : List Nat) (m : Nat)
    (hss : ∀ t, t < m → starts.getD t 0 ≤ stops.getD t 0)
    (hsorted : ∀ t, t + 1 < m → stops.getD t 0 ≤ starts.getD (t + 1) 0) :
    ∀ i i2, i < i2 → i2 < m → stops.getD i 0 ≤ starts.getD i2 0 := by
  intro i i2
  induction i2 with
  | zero => omega
  | succ i2 ih =>
    intro hi hi2
    rcases Nat.lt_succ_iff_lt_or_eq.mp hi with h | h
    · exact le_trans (le_trans (ih h (by omega)) (hss i2 (by omega)))
        (hsorted i2 hi2)
    · subst h
      exact hsorted i (by omega)

/-- C4: for list-slot boundaries `starts`/`stops` forming sorted,
disjoint slots that start at absolute position 0, `parent` writes into
every position `j` of slot `i` the slot index `i`, and `index` writes
the 0-based offset `j - starts[i]`; in particular for `starts=[0,3]`,
`stops=[3,5]` the results are `[0,0,0,1,1]` and `[0,1,2,0,1]`. -/
theorem parent_index_spec (starts stops : List Nat)
    (hlen : stops.length = starts.length)
    (hmin : minList starts = 0)
    (hss : ∀ t, t < starts.length → starts.getD t 0 ≤ stops.getD t 0)
    (hsorted : ∀ t, t + 1 < starts.length →
      stops.getD t 0 ≤ starts.getD (t + 1) 0) :
    (∀ i j, i < starts.length → starts.getD i 0 ≤ j → j < stops.getD i 0 →
      (parentOp starts stops).getD j 0 = Int.ofNat i ∧
      (indexOp starts stops).getD j 0 = Int.ofNat (j - starts.getD i 0)) ∧
    parentOp [0, 3] [3, 5] = [0, 0, 0, 1, 1] ∧
    indexOp [0, 3] [3, 5] = [0, 1, 2, 0, 1] := by
  refine ⟨?_, rfl, rfl⟩
  intro i j hi hjlo hjhi
  have hcov : (fun i j => decide (starts.getD i 0 ≤ j ∧ j < stops.getD i 0)) i j
      = true := decide_eq_true ⟨hjlo, hjhi⟩
  have hjarr : j < (List.replicate (maxList stops - minList starts) (-1) :
      List Int).length := by
    have hmem : stops.getD i 0 ≤ maxList stops :=
      le_maxList stops _ (getD_mem stops i (by omega))
    simp only [List.length_replicate, hmin]
    omega
  have hlater : ∀ i2, i < i2 → i2 < starts.length →
      (fun i j => decide (starts.getD i 0 ≤ j ∧ j < stops.getD i 0)) i2 j
        = false := by
    intro i2 h1 h2
    have hch := slots_chain starts stops starts.length hss hsorted i i2 h1 h2
    exact decide_eq_false (fun hand => by omega)
  constructor
  · exact foldRange_getD_covered
      (fun arr i => sliceAssign arr (starts.getD i 0) (stops.getD i 0) (Int.ofNat i))
      (fun i j => decide (starts.getD i 0 ≤ j ∧ j < stops.getD i 0))
      (fun i _ => Int.ofNat i)
      (fun arr i => List.length_mapIdx)
      (fun arr i2 j2 hj2 => by
        have hj2m : j2 < (sliceAssign arr (starts.getD i2 0)
            (stops.getD i2 0) (Int.ofNat i2)).length := by
          simpa [sliceAssign, List.length_mapIdx] using hj2
        rw [List.getD_eq_getElem _ _ hj2m, List.getD_eq_getElem _ _ hj2]
        simp [sliceAssign, List.getElem_mapIdx])
      starts.length _ i j hjarr hi hcov hlater
  · exact foldRange_getD_covered
      (fun arr i => sliceArange arr (starts.getD i 0) (stops.getD i 0))
      (fun i j => decide (starts.getD i 0 ≤ j ∧ j < stops.getD i 0))
      (fun i j => Int.ofNat (j - starts.getD i 0))
      (fun arr i => List.length_mapIdx)
      (fun arr i2 j2 hj2 => by
        have hj2m : j2 < (sliceArange arr (starts.getD i2 0)
            (stops.getD i2 0)).length := by
          simpa [sliceArange, List.length_mapIdx] using hj2
        rw [List.getD_eq_getElem _ _ hj2m, List.getD_eq_getElem _ _ hj2]
        simp [sliceArange, List.getElem_mapIdx])
      starts.length _ i j hjarr hi hcov hlater

/-- Witness for C4: the spec's boundary example, slot 1, position 4. -/
theorem parent_index_spec_witness :
    minList [0, 3] = 0 ∧
    (parentOp [0, 3] [3, 5]).getD 4 0 = Int.ofNat 1 ∧
    (indexOp [0, 3] [3, 5]).getD 4 0 = Int.ofNat 1 := by
  have hss : ∀ t, t < ([0, 3] : List Nat).length →
      ([0, 3] : List Nat).getD t 0 ≤ ([3, 5] : List Nat).getD t 0 := by
    intro t ht
    rcases t with _ | _ | t
    · decide
    · decide
    · simp only [List.length_cons, List.length_nil] at ht
      omega
  have hsorted : ∀ t, t + 1 < ([0, 3] : List Nat).length →
      ([3, 5] : List Nat).getD t 0 ≤ ([0, 3] : List Nat).getD (t + 1) 0 := by
    intro t ht
    rcases t with _ | t
    · decide
    · simp only [List.length_cons, List.length_nil] at ht
      omega
  refine ⟨by decide, ?_, ?_⟩
  · exact ((parent_index_spec [0, 3] [3, 5] (by decide) (by decide)
      hss hsorted).1 1 4 (by decide) (by decide) (by decide)).1
  · exact ((parent_index_spec [0, 3] [3, 5] (by decide) (by decide)
      hss hsorted).1 1 4 (by decide) (by decide) (by decide)).2

/-- `innerstarts[1:] == innerstops[:-1]` pointwise. -/
theorem contig_pointwise (is2 ie : List Nat) (hlen : is2.length = ie.length)
    (h : is2.drop 1 = ie.dropLast) :
    ∀ j, j + 1 < is2.length → is2.getD (j + 1) 0 = ie.getD j 0 := by
  intro j hj
  have hd : j < (is2.drop 1).length := by simp; omega
  have hd2 : j < ie.dropLast.length := by rw [← h]; exact hd
  have hb1 : 1 + j < is2.length := by simp at hd ⊢; omega
  have hb2 : j < ie.length := by simp at hd2 ⊢; omega
  have e1 : (is2.drop 1)[j] = is2[1 + j] := List.getElem_drop is2
  have e2 : ie.dropLast[j] = ie[j] := ie.getElem_dropLast j hd2
  have := congrArg (fun l : List Nat => l[j]?) h
  simp only [List.getElem?_eq_getElem hd, List.getElem?_eq_getElem hd2] at this
  rw [List.getD_eq_getElem _ _ hj, List.getD_eq_getElem _ _ (by omega : j < ie.length)]
  rw [e1, e2] at this
  simpa [show 1 + j = j + 1 by omega] using Option.some.inj this

/-- Under contiguity, consecutive inner slot lengths telescope: the glued
range from `starts[a]` to `stops[a+k-1]` has exactly the summed length of
the `k` inner slots starting at `a` (no element is dropped). -/
theorem telescope (is2 ie : List Nat)
    (hc : ∀ j, j + 1 < is2.length → is2.getD (j + 1) 0 = ie.getD j 0)
    (hm : ∀ j, j < is2.length → is2.getD j 0 ≤ ie.getD j 0) :
    ∀ k a, 1 ≤ k → a + k ≤ is2.length →
      is2.getD a 0 ≤ ie.getD (a + k - 1) 0 ∧
      ie.getD (a + k - 1) 0 - is2.getD a 0
        = ((List.range k).map
            (fun t => ie.getD (a + t) 0 - is2.getD (a + t) 0)).sum := by
  intro k
  induction k with
  | zero => intro a h1; omega
  | succ k ih =>
    intro a _ hak
    rcases Nat.eq_zero_or_pos k with hk | hk
    · subst hk
      refine ⟨by simpa using hm a (by omega), ?_⟩
      rw [show (0 : Nat) + 1 = 1 by rfl, List.range_succ]
      simp
    · obtain ⟨ih1, ih2⟩ := ih a hk (by omega)
      have hcc : is2.getD (a + k) 0 = ie.getD (a + k - 1) 0 := by
        have hstep := hc (a + k - 1) (by omega)
        rwa [show a + k - 1 + 1 = a + k by omega] at hstep
      have hmm : is2.getD (a + k) 0 ≤ ie.getD (a + k) 0 := hm (a + k) (by omega)
      constructor
      · rw [show a + (k + 1) - 1 = a + k by omega]
        omega
      · rw [List.range_succ, List.map_append, List.sum_append]
        simp only [List.map_cons, List.map_nil, List.sum_cons, List.sum_nil]
        rw [show a + (k + 1) - 1 = a + k by omega]
        omega

/-- C5: `flatten` on List(List(X)) raises the unsupported-feature error
whenever the inner storage is not contiguous; when it is contiguous it
collapses one nesting level by remapping the outer offsets through the
inner offsets (`innerstarts[outerstarts]`, `innerstops[outerstops-1]`),
and then each collapsed slot's length is exactly the summed length of
the inner lists it glues — no element is silently dropped. -/
theorem flatten_spec (outerstarts outerstops innerstarts innerstops : List Nat) :
    (innerstarts.drop 1 ≠ innerstops.dropLast →
      flattenOp outerstarts outerstops innerstarts innerstops
        = .error "inner arrays are not contiguous: flatten would require the creation of pointers") ∧
    (innerstarts.drop 1 = innerstops.dropLast →
      flattenOp outerstarts outerstops innerstarts innerstops
        = .ok (outerstarts.map (fun i => innerstarts.getD i 0),
            outerstops.map (fun o =>
              innerstops.getD (wrapPred innerstops.length o) 0))) ∧
    (innerstarts.drop 1 = innerstops.dropLast →
      innerstarts.length = innerstops.length →
      (∀ j, j < innerstarts.length →
        innerstarts.getD j 0 ≤ innerstops.getD j 0) →
      ∀ i, i < outerstarts.length → i < outerstops.length →
        outerstarts.getD i 0 < outerstops.getD i 0 →
        outerstops.getD i 0 ≤ innerstarts.length →
        (outerstops.map (fun o =>
            innerstops.getD (wrapPred innerstops.length o) 0)).getD i 0
          - (outerstarts.map (fun j => innerstarts.getD j 0)).getD i 0
          = ((List.range (outerstops.getD i 0 - outerstarts.getD i 0)).map
              (fun t => innerstops.getD (outerstarts.getD i 0 + t) 0
                - innerstarts.getD (outerstarts.getD i 0 + t) 0)).sum) := by
  refine ⟨?_, ?_, ?_⟩
  · intro h
    unfold flattenOp
    rw [if_neg h]
  · intro h
    unfold flattenOp
    rw [if_pos h]
  · intro h hlen hm i hi1 hi2 hneq hbound
    have hc := contig_pointwise innerstarts innerstops hlen h
    have hmapS : (outerstarts.map (fun j => innerstarts.getD j 0)).getD i 0
        = innerstarts.getD (outerstarts.getD i 0) 0 := by
      have hl : i < (outerstarts.map (fun j => innerstarts.getD j 0)).length := by
        simpa using hi1
      rw [List.getD_eq_getElem _ _ hl, List.getD_eq_getElem _ _ hi1]
      simp
    have hmapE : (outerstops.map (fun o =>
        innerstops.getD (wrapPred innerstops.length o) 0)).getD i 0
        = innerstops.getD (outerstops.getD i 0 - 1) 0 := by
      have hl : i < (outerstops.map (fun o =>
          innerstops.getD (wrapPred innerstops.length o) 0)).length := by
        simpa using hi2
      have hwp : wrapPred innerstops.length (outerstops.getD i 0)
          = outerstops.getD i 0 - 1 := by
        unfold wrapPred
        rw [if_neg (by omega)]
      rw [List.getD_eq_getElem _ _ hl]
      simp only [List.getElem_map]
      rw [← List.getD_eq_getElem outerstops 0 hi2, hwp]
    rw [hmapS, hmapE]
    have := telescope innerstarts innerstops hc hm
      (outerstops.getD i 0 - outerstarts.getD i 0) (outerstarts.getD i 0)
      (by omega) (by omega)
    rw [show outerstarts.getD i 0 + (outerstops.getD i 0 - outerstarts.getD i 0) - 1
        = outerstops.getD i 0 - 1 by omega] at this
    exact this.2

/-- Witness for C5: a non-contiguous inner storage (`[0,3]`/`[2,5]`)
raises; a contiguous one (`[0,3]`/`[3,5]`) collapses, with slot 0 of
size 5 = 3 + 2. -/
theorem flatten_spec_witness :
    (([0, 3] : List Nat).drop 1 ≠ ([2, 5] : List Nat).dropLast) ∧
    flattenOp [0] [2] [0, 3] [2, 5]
      = .error "inner arrays are not contiguous: flatten would require the creation of pointers" ∧
    flattenOp [0] [2] [0, 3] [3, 5]
      = .ok ([0], [5]) := by
  refine ⟨by decide, ?_, ?_⟩
  · exact (flatten_spec [0] [2] [0, 3] [2, 5]).1 (by decide)
  · have := (flatten_spec [0] [2] [0, 3] [3, 5]).2.1 (by decide)
    simpa using this

/-- A successful memo lookup is a memo entry. -/
theorem mlookup_mem : ∀ (m : List (Nat × Nat)) (i v : Nat),
    mlookup m i = some v → (i, v) ∈ m := by
  intro m
  induction m with
  | nil => intro i v h; cases h
  | cons p rest ih =>
    intro i v h
    obtain ⟨k, w⟩ := p
    by_cases hik : i = k
    · subst hik
      simp only [mlookup, if_true, eq_self_iff_true, Option.some.injEq] at h
      rw [← h]
      exact List.mem_cons_self _ _
    · simp only [mlookup, if_neg hik] at h
      exact List.mem_cons_of_mem _ (ih i v h)

/-- `memoExt` is reflexive. -/
theorem memoExt_refl (m : List (Nat × Nat)) : memoExt m m :=
  fun _ _ h => h

/-- `memoExt` is transitive. -/
theorem memoExt_trans {a b c : List (Nat × Nat)} :
    memoExt a b → memoExt b c → memoExt a c :=
  fun h1 h2 i v h => h2 i v (h1 i v h)

/-- Inserting a fresh key extends the memo. -/
theorem memoExt_cons (m : List (Nat × Nat)) (l r : Nat)
    (h : mlookup m l = none) : memoExt m ((l, r) :: m) := by
  intro i v hv
  by_cases hil : i = l
  · subst hil
    rw [h] at hv
    cases hv
  · simpa [mlookup, hil] using hv

/-- Membership in the unmemoed-node list. -/
theorem mem_unmemoed (g : SchemaGraph) (memo : List (Nat × Nat)) (i : Nat) :
    i ∈ unmemoed g memo ↔ i < g.nodes.length ∧ mlookup memo i = none := by
  simp [unmemoed, List.mem_filter, List.mem_range, Option.isNone_iff_eq_none]

/-- The unmemoed-node list has no duplicates. -/
theorem unmemoed_nodup (g : SchemaGraph) (memo : List (Nat × Nat)) :
    (unmemoed g memo).Nodup :=
  List.Nodup.filter _ (List.nodup_range _)

/-- A larger memo leaves fewer unmemoed nodes. -/
theorem sublist_unmemoed_of_ext (g : SchemaGraph) {m m' : List (Nat × Nat)}
    (h : memoExt m m') : (unmemoed g m').Sublist (unmemoed g m) := by
  apply List.monotone_filter_right
  intro a ha
  rw [Option.isNone_iff_eq_none] at ha ⊢
  cases hm : mlookup m a with
  | none => rfl
  | some v =>
    rw [h a v hm] at ha
    cases ha

/-- Sums of `Nat` lists are monotone along sublists. -/
theorem sublist_sum_le {l1 l2 : List Nat} (h : l1.Sublist l2) :
    l1.sum ≤ l2.sum := by
  induction h with
  | slnil => exact Nat.le_refl 0
  | cons x _ ih => simpa using Nat.le_trans ih (by simp)
  | cons₂ x _ ih => simpa using ih

/-- The pending-children potential is monotone in the memo. -/
theorem sumUnmem_le_of_ext (g : SchemaGraph) {m m' : List (Nat × Nat)}
    (h : memoExt m m') : sumUnmem g m' ≤ sumUnmem g m :=
  sublist_sum_le ((sublist_unmemoed_of_ext g h).map (childCountAt g))

/-- Inserting a fresh valid key removes exactly its children from the
pending-children potential. -/
theorem sumUnmem_cons (g : SchemaGraph) (memo : List (Nat × Nat)) (l r : Nat)
    (hl : l < g.nodes.length) (h : mlookup memo l = none) :
    sumUnmem g ((l, r) :: memo) + childCountAt g l = sumUnmem g memo := by
  have hfe : unmemoed g ((l, r) :: memo)
      = (unmemoed g memo).filter (fun i => i != l) := by
    unfold unmemoed
    rw [List.filter_filter]
    apply List.filter_congr
    intro x _
    by_cases hxl : x = l
    · subst hxl
      simp [mlookup]
    · simp [mlookup, hxl]
  have hlm : l ∈ unmemoed g memo := (mem_unmemoed g memo l).mpr ⟨hl, h⟩
  have hperm : (unmemoed g memo).Perm (l :: (unmemoed g memo).erase l) :=
    List.perm_cons_erase hlm
  have herase : (unmemoed g memo).erase l
      = (unmemoed g memo).filter (fun i => i != l) :=
    List.Nodup.erase_eq_filter (unmemoed_nodup g memo) l
  unfold sumUnmem
  rw [hfe, ← herase, (hperm.map (childCountAt g)).sum_eq]
  simp [Nat.add_comm]

/-- Each scheduled child pair's left component is a child of the left
node. -/
theorem childPairs_left : ∀ (a b : SNode Nat) (p : Nat × Nat),
    p ∈ childPairs a b → p.1 ∈ childIds a := by
  intro a b p hp
  cases a <;> cases b <;>
    (try exact absurd hp (List.not_mem_nil p))
  case list.list =>
    simp only [childPairs, List.mem_singleton] at hp
    subst hp
    simp [childIds]
  case union.union =>
    simp only [childPairs] at hp
    simp only [childIds]
    exact (List.of_mem_zip hp).1
  case record.record =>
    simp only [childPairs, List.mem_map] at hp
    obtain ⟨q, hq, hpq⟩ := hp
    subst hpq
    simp only [childIds, List.mem_map]
    exact ⟨q, hq, rfl⟩
  case tuple.tuple =>
    simp only [childPairs] at hp
    simp only [childIds]
    exact (List.of_mem_zip hp).1
  case pointer.pointer =>
    simp only [childPairs, List.mem_singleton] at hp
    subst hp
    simp [childIds]

/-- A visit schedules at most as many pairs as the left node has
children. -/
theorem childPairs_length_le : ∀ (a b : SNode Nat),
    (childPairs a b).length ≤ (childIds a).length := by
  intro a b
  cases a <;> cases b <;> simp [childPairs, childIds]

/-- The root of a well-formed graph is a valid index. -/
theorem wf_root (g : SchemaGraph) (hwf : wfB g = true) :
    g.root < g.nodes.length := by
  unfold wfB at hwf
  rw [Bool.and_eq_true] at hwf
  exact of_decide_eq_true hwf.1

/-- Every valid node of a well-formed graph is node-well-formed. -/
theorem wf_node (g : SchemaGraph) (hwf : wfB g = true) (l : Nat)
    (hl : l < g.nodes.length) : nodeWF g.nodes.length (g.node l) = true := by
  unfold wfB at hwf
  rw [Bool.and_eq_true] at hwf
  refine List.all_eq_true.mp hwf.2 _ ?_
  unfold SchemaGraph.node
  rw [List.getD_eq_getElem _ _ hl]
  exact g.nodes.getElem_mem hl

/-- Children of a valid node are valid indices. -/
theorem wf_child (g : SchemaGraph) (hwf : wfB g = true) (l : Nat)
    (hl : l < g.nodes.length) (c : Nat) (hc : c ∈ childIds (g.node l)) :
    c < g.nodes.length := by
  have hn := wf_node g hwf l hl
  cases hnode : g.node l <;> rw [hnode] at hn hc
  case prim => cases hc
  case list =>
    simp only [childIds, List.mem_singleton] at hc
    subst hc
    simpa [nodeWF, childIds] using hn
  case union =>
    simp only [nodeWF, childIds, List.all_eq_true] at hn
    simpa using of_decide_eq_true (hn c (by simpa [childIds] using hc))
  case record =>
    simp only [nodeWF, Bool.and_eq_true, List.all_eq_true] at hn
    simp only [childIds, List.mem_map] at hc
    obtain ⟨q, hq, hqc⟩ := hc
    subst hqc
    exact of_decide_eq_true (hn.1 q hq)
  case tuple =>
    simp only [nodeWF, childIds, List.all_eq_true] at hn
    simpa using of_decide_eq_true (hn c (by simpa [childIds] using hc))
  case pointer =>
    simp only [childIds, List.mem_singleton] at hc
    subst hc
    simpa [nodeWF, childIds] using hn

/-- A valid Record node of a well-formed graph has distinct field
names. -/
theorem wf_record_nodup (g : SchemaGraph) (hwf : wfB g = true) (l : Nat)
    (hl : l < g.nodes.length) (fs : List (String × Nat)) (nb : Bool)
    (mk pk nm dc : Option String)
    (hnode : g.node l = .record fs nb mk pk nm dc) :
    (fs.map Prod.fst).Nodup := by
  have hn := wf_node g hwf l hl
  rw [hnode] at hn
  simp only [nodeWF, Bool.and_eq_true] at hn
  exact of_decide_eq_true hn.2

/-- Every node's scalar fields compare equal to themselves. -/
theorem shallowEq_refl : ∀ a : SNode Nat, shallowEq a a := by
  intro a
  cases a <;> simp [shallowEq, sameKeys]

/-- Zipping a list with itself pairs each element with itself. -/
theorem zip_self : ∀ l : List Nat, l.zip l = l.map (fun x => (x, x)) := by
  intro l
  induction l with
  | nil => rfl
  | cons x xs ih => simp [List.zip_cons_cons, ih]

/-- Looking up a field name with distinct names finds its value. -/
theorem flookup_self : ∀ (fs : List (String × Nat)) (n : String) (c : Nat),
    (fs.map Prod.fst).Nodup → (n, c) ∈ fs → flookup fs n = some c := by
  intro fs
  induction fs with
  | nil => intro n c _ h; cases h
  | cons q rest ih =>
    intro n c hnd hmem
    obtain ⟨qn, qc⟩ := q
    simp only [List.map_cons, List.nodup_cons] at hnd
    rcases List.mem_cons.mp hmem with h | h
    · injection h with h1 h2
      subst h1
      subst h2
      simp [flookup]
    · by_cases hq : n = qn
      · subst hq
        exact absurd (List.mem_map.mpr ⟨(n, c), h, rfl⟩) hnd.1
      · simp only [flookup, if_neg hq]
        exact ih n c hnd.2 h

/-- On a self-comparison of a valid node, every scheduled child pair is
a diagonal pair of a child. -/
theorem childPairs_self (g : SchemaGraph) (hwf : wfB g = true) (l : Nat)
    (hl : l < g.nodes.length) :
    ∀ p ∈ childPairs (g.node l) (g.node l),
      p.1 ∈ childIds (g.node l) ∧ p.2 = p.1 := by
  intro p hp
  refine ⟨childPairs_left _ _ p hp, ?_⟩
  cases hnode : g.node l <;> rw [hnode] at hp
  case prim => cases hp
  case list =>
    simp only [childPairs, List.mem_singleton] at hp
    subst hp
    rfl
  case union =>
    simp only [childPairs, zip_self, List.mem_map] at hp
    obtain ⟨x, _, hx⟩ := hp
    subst hx
    rfl
  case record fs nb mk pk nm dc =>
    simp only [childPairs, List.mem_map] at hp
    obtain ⟨q, hq, hpq⟩ := hp
    subst hpq
    have hnd := wf_record_nodup g hwf l hl fs nb mk pk nm dc hnode
    simp [flookup_self fs q.1 q.2 hnd hq]
  case tuple =>
    simp only [childPairs, zip_self, List.mem_map] at hp
    obtain ⟨x, _, hx⟩ := hp
    subst hx
    rfl
  case pointer =>
    simp only [childPairs, List.mem_singleton] at hp
    subst hp
    rfl

/-- `eqRun` on a well-formed left graph returns within the potential
bound (`__eq__` cannot recurse forever: every fresh descent removes a
left node from the unmemoed pool, which pays for the children it
schedules). -/
theorem eqRun_total (g1 g2 : SchemaGraph) (hwf : wfB g1 = true) :
    ∀ fuel memo tasks,
      (∀ p ∈ tasks, p.1 < g1.nodes.length) →
      tasks.length + sumUnmem g1 memo < fuel →
      ∃ b m', eqRun g1 g2 fuel memo tasks = some (b, m') ∧ memoExt memo m' := by
  intro fuel
  induction fuel with
  | zero => intro memo tasks _ h; omega
  | succ fuel ih =>
    intro memo tasks hv hpot
    cases tasks with
    | nil => exact ⟨true, memo, rfl, memoExt_refl memo⟩
    | cons p rest =>
      obtain ⟨l, r⟩ := p
      have hvl : l < g1.nodes.length := hv (l, r) (List.mem_cons_self _ _)
      have hvrest : ∀ q ∈ rest, q.1 < g1.nodes.length :=
        fun q hq => hv q (List.mem_cons_of_mem _ hq)
      have hrest : rest.length + sumUnmem g1 memo < fuel := by
        simp only [List.length_cons] at hpot
        omega
      simp only [eqRun]
      by_cases hprim : isPrim (g1.node l) = true
      · rw [if_pos hprim]
        by_cases hsh : shallowEq (g1.node l) (g2.node r)
        · rw [if_pos hsh]
          exact ih memo rest hvrest hrest
        · rw [if_neg hsh]
          exact ⟨false, memo, rfl, memoExt_refl memo⟩
      · rw [if_neg hprim]
        cases hml : mlookup memo l with
        | some r2 =>
          dsimp only
          by_cases hr : r2 = r
          · rw [if_pos hr]
            exact ih memo rest hvrest hrest
          · rw [if_neg hr]
            exact ⟨false, memo, rfl, memoExt_refl memo⟩
        | none =>
          dsimp only
          by_cases hsh : shallowEq (g1.node l) (g2.node r)
          · rw [if_pos hsh]
            have hx := memoExt_cons memo l r hml
            have hsum := sumUnmem_cons g1 memo l r hvl hml
            have hcp := childPairs_length_le (g1.node l) (g2.node r)
            have hv2 : ∀ q ∈ childPairs (g1.node l) (g2.node r) ++ rest,
                q.1 < g1.nodes.length := by
              intro q hq
              rcases List.mem_append.mp hq with h | h
              · exact wf_child g1 hwf l hvl q.1 (childPairs_left _ _ q h)
              · exact hvrest q h
            have hpot2 : (childPairs (g1.node l) (g2.node r) ++ rest).length
                + sumUnmem g1 ((l, r) :: memo) < fuel := by
              rw [List.length_append]
              unfold childCountAt at hsum
              simp only [List.length_cons] at hpot
              omega
            obtain ⟨b, m', he, hx2⟩ :=
              ih ((l, r) :: memo) (childPairs (g1.node l) (g2.node r) ++ rest)
                hv2 hpot2
            exact ⟨b, m', he, memoExt_trans hx hx2⟩
          · rw [if_neg hsh]
            exact ⟨false, memo, rfl, memoExt_refl memo⟩

/-- Self-comparison of a well-formed graph always answers `True`:
every scalar comparison is reflexive, every memo hit maps an id to
itself, and every scheduled pair stays diagonal. -/
theorem eqRun_refl (g : SchemaGraph) (hwf : wfB g = true) :
    ∀ fuel memo tasks,
      (∀ p ∈ tasks, p.1 < g.nodes.length ∧ p.2 = p.1) →
      diagMemo memo →
      tasks.length + sumUnmem g memo < fuel →
      ∃ m', eqRun g g fuel memo tasks = some (true, m') := by
  intro fuel
  induction fuel with
  | zero => intro memo tasks _ _ h; omega
  | succ fuel ih =>
    intro memo tasks hv hdiag hpot
    cases tasks with
    | nil => exact ⟨memo, rfl⟩
    | cons p rest =>
      obtain ⟨l, r⟩ := p
      obtain ⟨hvl, hrl⟩ := hv (l, r) (List.mem_cons_self _ _)
      simp only at hrl
      have hlr : l = r := hrl.symm
      subst hlr
      have hvrest : ∀ q ∈ rest, q.1 < g.nodes.length ∧ q.2 = q.1 :=
        fun q hq => hv q (List.mem_cons_of_mem _ hq)
      have hrest : rest.length + sumUnmem g memo < fuel := by
        simp only [List.length_cons] at hpot
        omega
      simp only [eqRun]
      by_cases hprim : isPrim (g.node l) = true
      · rw [if_pos hprim, if_pos (shallowEq_refl (g.node l))]
        exact ih memo rest hvrest hdiag hrest
      · rw [if_neg hprim]
        cases hml : mlookup memo l with
        | some r2 =>
          dsimp only
          have hr2 : r2 = l := hdiag (l, r2) (mlookup_mem memo l r2 hml)
          rw [if_pos hr2]
          exact ih memo rest hvrest hdiag hrest
        | none =>
          dsimp only
          rw [if_pos (shallowEq_refl (g.node l))]
          have hdiag2 : diagMemo ((l, l) :: memo) := by
            intro q hq
            rcases List.mem_cons.mp hq with h | h
            · subst h; rfl
            · exact hdiag q h
          have hsum := sumUnmem_cons g memo l l hvl hml
          have hself := childPairs_self g hwf l hvl
          have hv2 : ∀ q ∈ childPairs (g.node l) (g.node l) ++ rest,
              q.1 < g.nodes.length ∧ q.2 = q.1 := by
            intro q hq
            rcases List.mem_append.mp hq with h | h
            · obtain ⟨h1, h2⟩ := hself q h
              exact ⟨wf_child g hwf l hvl q.1 h1, h2⟩
            · exact hvrest q h
          have hcp := childPairs_length_le (g.node l) (g.node l)
          have hpot2 : (childPairs (g.node l) (g.node l) ++ rest).length
              + sumUnmem g ((l, l) :: memo) < fuel := by
            rw [List.length_append]
            unfold childCountAt at hsum
            simp only [List.length_cons] at hpot
            omega
          exact ih ((l, l) :: memo) (childPairs (g.node l) (g.node l) ++ rest)
            hv2 hdiag2 hpot2

/-- The pending potential of a fresh run is the total child count. -/
theorem sumUnmem_nil (g : SchemaGraph) :
    sumUnmem g [] = (g.nodes.map (fun n => (childIds n).length)).sum := by
  unfold sumUnmem unmemoed
  rw [show (List.range g.nodes.length).filter
        (fun i => (mlookup [] i).isNone) = List.range g.nodes.length
      from List.filter_eq_self.mpr (fun a _ => rfl)]
  have hmap : (List.range g.nodes.length).map (childCountAt g)
      = g.nodes.map (fun n => (childIds n).length) := by
    apply List.ext_getElem
    · simp
    · intro i h1 h2
      simp only [List.getElem_map, List.getElem_range, childCountAt,
        SchemaGraph.node]
      rw [List.getD_eq_getElem _ _ (by simpa using h2)]
  rw [hmap]

/-- C2 (amended): on every well-formed schema graph, `__eq__` with the
`id(a) -> id(b)` memo terminates within the a-priori step bound against
any other graph, and self-comparison returns `True` (reflexivity),
repeat visits of an already-matched pair short-circuiting through the
memo.  (Symmetry, also asserted by the claim, fails in general: see the
counterexample theorem.) -/
theorem schema_eq_refl_and_terminates (g1 g2 : SchemaGraph)
    (h1 : wfB g1 = true) :
    (schemaEq g1 g2).isSome ∧ schemaEq g1 g1 = some true := by
  have hbound : (1 : Nat) + sumUnmem g1 [] < eqSteps g1 := by
    rw [sumUnmem_nil]
    unfold eqSteps
    omega
  constructor
  · obtain ⟨b, m', he, _⟩ := eqRun_total g1 g2 h1 (eqSteps g1) []
      [(g1.root, g2.root)]
      (by
        intro p hp
        simp only [List.mem_singleton] at hp
        subst hp
        exact wf_root g1 h1)
      (by simpa using hbound)
    simp [schemaEq, he]
  · obtain ⟨m', he⟩ := eqRun_refl g1 h1 (eqSteps g1) [] [(g1.root, g1.root)]
      (by
        intro p hp
        simp only [List.mem_singleton] at hp
        subst hp
        exact ⟨wf_root g1 h1, rfl⟩)
      (fun q hq => absurd hq (List.not_mem_nil q))
      (by simpa using hbound)
    simp [schemaEq, he]

/-- Witness for C2: the amended claim instantiated at two concrete
well-formed graphs. -/
theorem schema_eq_refl_and_terminates_witness :
    wfB gShared = true ∧
    ((schemaEq gShared gUnshared).isSome ∧
      schemaEq gShared gShared = some true) :=
  ⟨by decide, schema_eq_refl_and_terminates gShared gUnshared (by decide)⟩

/-- Counterexample to C2 as stated: symmetry fails on shared
substructure.  `gShared` is `Tuple([x, x])` with one shared List child;
`gUnshared` is `Tuple([y1, y2])` with two distinct but equal List
children.  Comparing `gUnshared == gShared` yields `True`, but the
reverse comparison memoizes `x -> y1` at the first child and then
rejects the second (`memo[id(x)] == id(y2)` is false), yielding
`False`. -/
theorem schema_eq_not_symmetric :
    wfB gShared = true ∧ wfB gUnshared = true ∧
    schemaEq gUnshared gShared = some true ∧
    schemaEq gShared gUnshared = some false := by
  decide

/-- A once-validated partitioning survives its JSON round trip. -/
theorem part_roundtrip (p : PartM) (h : partOk p = true) :
    partFromjson (partTojson p) = .ok p := by
  cases p with
  | explicitPart offs ps =>
    simp only [partOk] at h
    simp [partTojson, partFromjson, h]
  | prefixPart offs d =>
    simp only [partOk, Bool.and_eq_true] at h
    by_cases hd : d = "-"
    · subst hd
      simp [partTojson, partFromjson, h.1]
    · simp [partTojson, partFromjson, hd, h.1, h.2]
  | suffixPart offs d =>
    simp only [partOk, Bool.and_eq_true] at h
    by_cases hd : d = "-"
    · subst hd
      simp [partTojson, partFromjson, h.1]
    · simp [partTojson, partFromjson, hd, h.1, h.2]
  | externalPart lk => rfl

/-- Skipping a non-matching plain key. -/
theorem dlookup_cons_ne (k k2 : String) (x : DJVal) (rest : DJObj)
    (h : ¬ k = k2) : dlookup ((k2, x) :: rest) k = dlookup rest k := by
  simp [dlookup, h]

/-- Skipping a non-matching optional key. -/
theorem dlookup_optKey_ne (k k2 : String) (v : Option DJVal) (rest : DJObj)
    (h : ¬ k = k2) : dlookup (optKey k2 v ++ rest) k = dlookup rest k := by
  cases v with
  | none => rfl
  | some x => simp [optKey, dlookup, h]

/-- A trailing non-matching optional key yields nothing. -/
theorem dlookup_optKey_ne_nil (k k2 : String) (v : Option DJVal)
    (h : ¬ k = k2) : dlookup (optKey k2 v) k = none := by
  cases v with
  | none => rfl
  | some x => simp [optKey, dlookup, h]

/-- Hitting an optional key. -/
theorem dlookup_optKey_hit (k : String) (v : Option DJVal) (rest : DJObj) :
    dlookup (optKey k v ++ rest) k =
      match v with
      | some x => some x
      | none => dlookup rest k := by
  cases v with
  | none => rfl
  | some x => simp [optKey, dlookup]

/-- A trailing optional key looks itself up. -/
theorem dlookup_optKey_hit_nil (k : String) (v : Option DJVal) :
    dlookup (optKey k v) k = v := by
  cases v with
  | none => rfl
  | some x => simp [optKey, dlookup]

/-- The emitted Dataset JSON at key `"schema"`. -/
theorem body_schema (d : DatasetM) (js : JSchema) :
    dlookup (datasetTojsonBody d js) "schema" = some (.jschema js) := by
  simp [datasetTojsonBody, dlookup]

/-- The emitted Dataset JSON at key `"prefix"`. -/
theorem body_pfx (d : DatasetM) (js : JSchema) :
    dlookup (datasetTojsonBody d js) "prefix" = d.pfx.map DJVal.jstr := by
  unfold datasetTojsonBody
  rw [dlookup_cons_ne _ _ _ _ (by decide), dlookup_optKey_hit]
  cases d.pfx with
  | some s => rfl
  | none =>
    rw [dlookup_optKey_ne _ _ _ _ (by decide),
      dlookup_optKey_ne _ _ _ _ (by decide),
      dlookup_optKey_ne _ _ _ _ (by decide),
      dlookup_optKey_ne _ _ _ _ (by decide),
      dlookup_optKey_ne _ _ _ _ (by decide),
      dlookup_optKey_ne _ _ _ _ (by decide),
      dlookup_optKey_ne_nil _ _ _ (by decide)]
    rfl

/-- The emitted Dataset JSON at key `"delimiter"`. -/
theorem body_delimiter (d : DatasetM) (js : JSchema) :
    dlookup (datasetTojsonBody d js) "delimiter"
      = d.delimiter.map DJVal.jstr := by
  unfold datasetTojsonBody
  rw [dlookup_cons_ne _ _ _ _ (by decide),
    dlookup_optKey_ne _ _ _ _ (by decide), dlookup_optKey_hit]
  cases d.delimiter with
  | some s => rfl
  | none =>
    rw [dlookup_optKey_ne _ _ _ _ (by decide),
      dlookup_optKey_ne _ _ _ _ (by decide),
      dlookup_optKey_ne _ _ _ _ (by decide),
      dlookup_optKey_ne _ _ _ _ (by decide),
      dlookup_optKey_ne _ _ _ _ (by decide),
      dlookup_optKey_ne_nil _ _ _ (by decide)]
    rfl

/-- The emitted Dataset JSON at key `"partitioning"`. -/
theorem body_partitioning (d : DatasetM) (js : JSchema) :
    dlookup (datasetTojsonBody d js) "partitioning"
      = d.partitioning.map (fun p => .jpart (partTojson p)) := by
  unfold datasetTojsonBody
  rw [dlookup_cons_ne _ _ _ _ (by decide),
    dlookup_optKey_ne _ _ _ _ (by decide),
    dlookup_optKey_ne _ _ _ _ (by decide),
    dlookup_optKey_ne _ _ _ _ (by decide), dlookup_optKey_hit]
  cases d.partitioning with
  | some p => rfl
  | none =>
    rw [dlookup_optKey_ne _ _ _ _ (by decide),
      dlookup_optKey_ne _ _ _ _ (by decide),
      dlookup_optKey_ne _ _ _ _ (by decide),
      dlookup_optKey_ne_nil _ _ _ (by decide)]
    rfl

/-- The emitted Dataset JSON at key `"packing"`. -/
theorem body_packing (d : DatasetM) (js : JSchema) :
    dlookup (datasetTojsonBody d js) "packing" = d.packing.map DJVal.jstr := by
  unfold datasetTojsonBody
  rw [dlookup_cons_ne _ _ _ _ (by decide),
    dlookup_optKey_ne _ _ _ _ (by decide),
    dlookup_optKey_ne _ _ _ _ (by decide),
    dlookup_optKey_ne _ _ _ _ (by decide),
    dlookup_optKey_ne _ _ _ _ (by decide), dlookup_optKey_hit]
  cases d.packing with
  | some s => rfl
  | none =>
    rw [dlookup_optKey_ne _ _ _ _ (by decide),
      dlookup_optKey_ne _ _ _ _ (by decide),
      dlookup_optKey_ne_nil _ _ _ (by decide)]
    rfl

/-- The emitted Dataset JSON has no `"data"` key — the key
`Dataset.fromjson` reads the name from. -/
theorem body_data (d : DatasetM) (js : JSchema) :
    dlookup (datasetTojsonBody d js) "data" = none := by
  unfold datasetTojsonBody
  rw [dlookup_cons_ne _ _ _ _ (by decide),
    dlookup_optKey_ne _ _ _ _ (by decide),
    dlookup_optKey_ne _ _ _ _ (by decide),
    dlookup_optKey_ne _ _ _ _ (by decide),
    dlookup_optKey_ne _ _ _ _ (by decide),
    dlookup_optKey_ne _ _ _ _ (by decide),
    dlookup_optKey_ne _ _ _ _ (by decide),
    dlookup_optKey_ne _ _ _ _ (by decide),
    dlookup_optKey_ne_nil _ _ _ (by decide)]

/-- The emitted Dataset JSON at key `"doc"`. -/
theorem body_doc (d : DatasetM) (js : JSchema) :
    dlookup (datasetTojsonBody d js) "doc" = d.doc.map DJVal.jstr := by
  unfold datasetTojsonBody
  rw [dlookup_cons_ne _ _ _ _ (by decide),
    dlookup_optKey_ne _ _ _ _ (by decide),
    dlookup_optKey_ne _ _ _ _ (by decide),
    dlookup_optKey_ne _ _ _ _ (by decide),
    dlookup_optKey_ne _ _ _ _ (by decide),
    dlookup_optKey_ne _ _ _ _ (by decide),
    dlookup_optKey_ne _ _ _ _ (by decide), dlookup_optKey_hit]
  cases d.doc with
  | some s => rfl
  | none =>
    rw [dlookup_optKey_ne_nil _ _ _ (by decide)]
    rfl

/-- The emitted Dataset JSON at key `"metadata"`. -/
theorem body_metadata (d : DatasetM) (js : JSchema) :
    dlookup (datasetTojsonBody d js) "metadata"
      = d.metadata.map DJVal.jmeta := by
  unfold datasetTojsonBody
  rw [dlookup_cons_ne _ _ _ _ (by decide),
    dlookup_optKey_ne _ _ _ _ (by decide),
    dlookup_optKey_ne _ _ _ _ (by decide),
    dlookup_optKey_ne _ _ _ _ (by decide),
    dlookup_optKey_ne _ _ _ _ (by decide),
    dlookup_optKey_ne _ _ _ _ (by decide),
    dlookup_optKey_ne _ _ _ _ (by decide),
    dlookup_optKey_ne _ _ _ _ (by decide), dlookup_optKey_hit_nil]

/-- An optional string key reads back as the attribute. -/
theorem getStrOpt_of_map_jstr (obj : DJObj) (k : String) (v : Option String)
    (h : dlookup obj k = v.map DJVal.jstr) : getStrOpt obj k = .ok v := by
  cases v with
  | none => simp [getStrOpt, h]
  | some s => simp [getStrOpt, h]

/-- Phase two preserves the arena length. -/
theorem resolveAll_length (L : List (String × Nat)) (ns : List (SNode BChild))
    (ns' : List (SNode Nat)) (h : resolveAll L ns = .ok ns') :
    ns'.length = ns.length := by
  induction ns generalizing ns' with
  | nil =>
    unfold resolveAll at h
    injection h with h
    rw [← h]
    rfl
  | cons n rest ih =>
    unfold resolveAll at h
    cases hn : resolveNode L n with
    | error e => rw [hn] at h; exact absurd h (by simp)
    | ok n2 =>
      rw [hn] at h
      cases hr : resolveAll L rest with
      | error e => rw [hr] at h; exact absurd h (by simp)
      | ok rest2 =>
        rw [hr] at h
        injection h with h
        rw [← h, List.length_cons, List.length_cons, ih rest2 hr]

/-- Phase two acts pointwise: the output node at `i` is the resolution of
the input node at `i`. -/
theorem resolveAll_getD (L : List (String × Nat)) (ns : List (SNode BChild))
    (ns' : List (SNode Nat)) (h : resolveAll L ns = .ok ns')
    (i : Nat) (hi : i < ns.length) :
    resolveNode L (ns.getD i (.prim "" [] false none none none none none))
      = .ok (ns'.getD i defaultNode) := by
  induction ns generalizing ns' i with
  | nil => exact absurd hi (by simp)
  | cons n rest ih =>
    unfold resolveAll at h
    cases hn : resolveNode L n with
    | error e => rw [hn] at h; exact absurd h (by simp)
    | ok n2 =>
      rw [hn] at h
      cases hr : resolveAll L rest with
      | error e => rw [hr] at h; exact absurd h (by simp)
      | ok rest2 =>
        rw [hr] at h
        injection h with h
        rw [← h]
        cases i with
        | zero => simpa using hn
        | succ i2 =>
          have hi2 : i2 < rest.length := by
            simpa [Nat.succ_lt_succ_iff] using hi
          simpa using ih rest2 hr i2 hi2

/-- Serializing a schema whose root is a non-nullable List yields a
`"list"` JSON object without a `"nullable"` key. -/
theorem tojson_root_list (g : SchemaGraph) (fuel : Nat) (j : JSchema)
    (hroot : rootIsNonNullList g = true)
    (hj : schemaTojson g fuel = some j) :
    ∃ jc starts stops mask packing name doc label,
      j = .jlist jc none starts stops mask packing name doc label := by
  unfold schemaTojson at hj
  cases hcl : collectLabels g fuel [g.root] ([], []) with
  | none => rw [hcl] at hj; exact absurd hj (by simp)
  | some pr =>
    rw [hcl] at hj
    obtain ⟨coll, labels⟩ := pr
    cases fuel with
    | zero => exact absurd hj (by simp [tojsonAux])
    | succ fuel2 =>
      dsimp only at hj
      unfold rootIsNonNullList at hroot
      cases hn : g.node g.root with
      | list c nullable starts stops mask packing name doc =>
        cases nullable with
        | true => rw [hn] at hroot; exact absurd hroot (by simp)
        | false =>
          rw [show tojsonAux g labels (fuel2 + 1) g.root []
              = (if labelOf labels g.root = none ∨ g.root ∉ ([] : List Nat) then
                  match g.node g.root with
                  | .prim dtype dims nullable data mask packing name doc =>
                    if dims = [] ∧ nullable = false ∧ data = none ∧ mask = none ∧
                        packing = none ∧ name = none then
                      some (.jstr dtype, [] ++ [g.root])
                    else
                      some (.jprim dtype (optDims dims) (optBool nullable)
                        data mask packing name doc (labelOf labels g.root), [] ++ [g.root])
                  | .list c nullable starts stops mask packing name doc =>
                    match tojsonAux g labels fuel2 c ([] ++ [g.root]) with
                    | none => none
                    | some (jc, shown) =>
                      some (.jlist jc (optBool nullable) starts stops mask packing
                        name doc (labelOf labels g.root), shown)
                  | .union ps nullable tags offsets mask packing name doc =>
                    match tojsonMany g labels fuel2 ps ([] ++ [g.root]) with
                    | none => none
                    | some (js, shown) =>
                      some (.junion js (optBool nullable) tags offsets mask packing
                        name doc (labelOf labels g.root), shown)
                  | .record fs nullable mask packing name doc =>
                    match tojsonFields g labels fuel2 fs ([] ++ [g.root]) with
                    | none => none
                    | some (jfs, shown) =>
                      some (.jrecord jfs (optBool nullable) mask packing
                        name doc (labelOf labels g.root), shown)
                  | .tuple ts nullable mask packing name doc =>
                    match tojsonMany g labels fuel2 ts ([] ++ [g.root]) with
                    | none => none
                    | some (js, shown) =>
                      some (.jtuple js (optBool nullable) mask packing
                        name doc (labelOf labels g.root), shown)
                  | .pointer t nullable positions mask packing name doc =>
                    match tojsonAux g labels fuel2 t ([] ++ [g.root]) with
                    | none => none
                    | some (jt, shown) =>
                      some (.jpointer jt (optBool nullable) positions mask packing
                        name doc (labelOf labels g.root), shown)
                else
                  match labelOf labels g.root with
                  | some s => some (.jstr s, [])
                  | none => none) from rfl] at hj
          rw [if_pos (Or.inr (List.not_mem_nil g.root)), hn] at hj
          dsimp only at hj
          cases hrec : tojsonAux g labels fuel2 c ([] ++ [g.root]) with
          | none => rw [hrec] at hj; exact absurd hj (by simp)
          | some pr2 =>
            rw [hrec] at hj
            obtain ⟨jc, shown⟩ := pr2
            refine ⟨jc, starts, stops, mask, packing, name, doc,
              labelOf labels g.root, ?_⟩
            simp only [Option.some.injEq] at hj
            rw [← hj]
            rfl
      | prim dtype dims nullable data mask packing name doc =>
        rw [hn] at hroot; exact absurd hroot (by simp)
      | union ps nullable tags offsets mask packing name doc =>
        rw [hn] at hroot; exact absurd hroot (by simp)
      | record fs nullable mask packing name doc =>
        rw [hn] at hroot; exact absurd hroot (by simp)
      | tuple ts nullable mask packing name doc =>
        rw [hn] at hroot; exact absurd hroot (by simp)
      | pointer t nullable positions mask packing name doc =>
        rw [hn] at hroot; exact absurd hroot (by simp)

/-- Deserializing a `"list"` JSON object without a `"nullable"` key
yields a schema whose root is a non-nullable List. -/
theorem fromjson_root_list (jc : JSchema)
    (starts stops mask packing name doc label : Option String)
    (g' : SchemaGraph)
    (hg : schemaFromjson
        (.jlist jc none starts stops mask packing name doc label) = .ok g') :
    rootIsNonNullList g' = true := by
  cases hph : phase1 jc ⟨[], []⟩ with
  | mk cch st1 =>
    unfold schemaFromjson at hg
    have hstep : phase1
        (.jlist jc none starts stops mask packing name doc label) ⟨[], []⟩
        = (.idx st1.arena.length,
            ⟨st1.arena ++
                [.list cch false starts stops mask packing name doc],
              regLabel label st1.arena.length st1.labels⟩) := by
      rw [phase1, hph]
      rfl
    rw [hstep] at hg
    dsimp only at hg
    cases hra : resolveAll (regLabel label st1.arena.length st1.labels)
        (st1.arena ++ [.list cch false starts stops mask packing name doc]) with
    | error e => rw [hra] at hg; exact absurd hg (by simp)
    | ok nodes =>
      rw [hra] at hg
      injection hg with hg
      have hpt := resolveAll_getD _ _ _ hra st1.arena.length (by simp)
      have hA : (st1.arena ++
            [SNode.list cch false starts stops mask packing name doc]).getD
          st1.arena.length (.prim "" [] false none none none none none)
          = .list cch false starts stops mask packing name doc := by
        rw [List.getD_eq_getElem _ _ (by simp)]
        exact List.getElem_concat_length _ _ _ rfl _
      rw [hA] at hpt
      unfold resolveNode at hpt
      dsimp only at hpt
      cases hrc : resolveChild (regLabel label st1.arena.length st1.labels)
          cch with
      | error e => rw [hrc] at hpt; exact absurd hpt (by simp [Except.map])
      | ok m =>
        rw [hrc] at hpt
        simp only [Except.map, Except.ok.injEq] at hpt
        have hlen := resolveAll_length _ _ _ hra
        rw [← hg]
        unfold rootIsNonNullList SchemaGraph.node
        simp only
        rw [← hpt]

/-- The tail of `Dataset.fromjson` on the object `Dataset.tojson` wrote:
`packing`, `doc` and `metadata` read back, the name reads the absent
`"data"` key, and the setter validations pass. -/
theorem datasetBuild_body (g : SchemaGraph) (d : DatasetM) (js : JSchema)
    (part : Option PartM)
    (hde : datasetDelimAccepts d.delimiter = true)
    (hq : (part.isSome && ! rootIsNonNullList g) = false) :
    datasetBuild g d.pfx d.delimiter part (datasetTojsonBody d js)
      = .ok ⟨g, d.pfx, d.delimiter, none, part, d.packing, none,
          d.doc, d.metadata⟩ := by
  have hpack := getStrOpt_of_map_jstr (datasetTojsonBody d js) "packing"
    d.packing (body_packing d js)
  have hname : getStrOpt (datasetTojsonBody d js) "data" = .ok none := by
    unfold getStrOpt
    rw [body_data d js]
  have hdoc := getStrOpt_of_map_jstr (datasetTojsonBody d js) "doc"
    d.doc (body_doc d js)
  unfold datasetBuild
  rw [hpack, hname, hdoc, body_metadata, hde, hq]
  cases d.metadata <;> rfl

/-- C10: the claimed Dataset JSON round trip is *partly* right: under the
constructor validations, `Dataset.fromjson(Dataset.tojson(d))` restores
`prefix`, `delimiter`, `partitioning`, `packing`, `doc` and `metadata`
and sends the schema through the schema round trip — but the result's
`name` is always `None` (fromjson reads it from the key `"data"`, which
tojson never writes, schema.py line 2143) and its `extension` is always
`None` (fromjson parses `"extension"` into a local it never passes to
the constructor, lines 2146-2149), refuting the claim for any dataset
with a name or extension set. -/
theorem dataset_roundtrip_amended (d : DatasetM) (fuel : Nat) (j : JSchema)
    (g' : SchemaGraph)
    (hj : schemaTojson d.schema fuel = some j)
    (hg : schemaFromjson j = .ok g')
    (hv : datasetValid d = true) :
    datasetTojson d fuel = some (datasetTojsonBody d j) ∧
      datasetFromjson (datasetTojsonBody d j) =
        .ok ⟨g', d.pfx, d.delimiter, none, d.partitioning, d.packing,
          none, d.doc, d.metadata⟩ := by
  refine ⟨by simp [datasetTojson, hj], ?_⟩
  have hv2 : (datasetDelimAccepts d.delimiter &&
      (match d.partitioning with
       | none => true
       | some p => rootIsNonNullList d.schema && partOk p)) = true := hv
  rw [Bool.and_eq_true] at hv2
  obtain ⟨hde, hpm⟩ := hv2
  have hpfx := getStrOpt_of_map_jstr (datasetTojsonBody d j) "prefix"
    d.pfx (body_pfx d j)
  have hdel := getStrOpt_of_map_jstr (datasetTojsonBody d j) "delimiter"
    d.delimiter (body_delimiter d j)
  rcases hp : d.partitioning with _ | p
  · simp only [datasetFromjson, body_schema, hg, hpfx, hdel,
      body_partitioning, hp, Option.map]
    exact datasetBuild_body g' d j none hde (by simp)
  · rw [hp] at hpm
    have hpm2 : rootIsNonNullList d.schema = true ∧ partOk p = true := by
      simpa using hpm
    obtain ⟨jc, s1, s2, s3, s4, s5, s6, lb, hjeq⟩ :=
      tojson_root_list d.schema fuel j hpm2.1 hj
    have hgroot := fromjson_root_list jc s1 s2 s3 s4 s5 s6 lb g' (hjeq ▸ hg)
    simp only [datasetFromjson, body_schema, hg, hpfx, hdel,
      body_partitioning, hp, Option.map, part_roundtrip p hpm2.2]
    exact datasetBuild_body g' d j (some p) hde (by simp [hgroot])

/-- C10 counterexample: the round trip of a named Dataset over the shared
-Primitive schema raises instead of returning an equal Dataset. -/
theorem dataset_roundtrip_fails :
    bugDataset.name = some "mydata" ∧
    datasetTojson bugDataset 20
      = some (datasetTojsonBody bugDataset sharedPrimJson) ∧
    datasetFromjson (datasetTojsonBody bugDataset sharedPrimJson)
      = .error "unresolved label: #0" := by
  refine ⟨rfl, by rfl, ?_⟩
  simp +decide [datasetFromjson, datasetTojsonBody, bugDataset, dlookup,
    optKey, sharedPrimJson, schemaFromjson, phase1, phase1Fields,
    resolveAll, resolveNode, resolveChild, resolveFields, regLabel,
    startsWithHash, Except.map]

/-- Witness: a partitioned, named Dataset with an extension and metadata
round-trips through JSON to the same Dataset *minus* its name and
extension, with the schema rebuilt children-first. -/
theorem dataset_roundtrip_amended_witness :
    (schemaTojson witDataset.schema 20 = some jList ∧
      schemaFromjson jList = .ok gListRT ∧
      datasetValid witDataset = true) ∧
    datasetTojson witDataset 20 = some (datasetTojsonBody witDataset jList) ∧
      datasetFromjson (datasetTojsonBody witDataset jList) =
        .ok ⟨gListRT, witDataset.pfx, witDataset.delimiter, none,
          witDataset.partitioning, witDataset.packing, none,
          witDataset.doc, witDataset.metadata⟩ := by
  have h1 : schemaTojson witDataset.schema 20 = some jList := by rfl
  have h2 : schemaFromjson jList = .ok gListRT := by
    simp +decide [schemaFromjson, jList, gListRT, phase1,
      resolveAll, resolveNode, resolveChild, regLabel, startsWithHash,
      Except.map]
  have h3 : datasetValid witDataset = true := by decide
  exact ⟨⟨h1, h2, h3⟩,
    dataset_roundtrip_amended witDataset 20 jList gListRT h1 h2 h3⟩

end OamapSpec
